import Mathlib

/-
Verification of the evm-cache CacheMonitor ingestion loop
(src/monitor/CacheMonitor.js).

The monitor is embedded shallowly:
  * the relational store is a `DB` value (lists of rows plus a log-id
    sequence counter);
  * the node client and the row counts reported by the insert queries are
    an explicit environment `Env`;
  * every observable action of the monitor (log lines, sleeps, process
    exits, node cycling, SQL transaction brackets, continuation callbacks,
    re-entries into the cursor loop) is recorded as an `Eff` in a trace;
  * `getBlock` processing one delivery of the node callback is
    `processDelivery`; the JS callback can fire more than once per fetch,
    which `processDeliveries` models by folding over a list of deliveries
    while threading the `localErrorRecovered` flag.

The SQL templates (BlockQueries.js / TransactionQueries.js) are not part
of the sources; where their behaviour matters it is modelled from the
spec and marked as such in the doc comment of the definition.
-/

/-- A log entry of a transaction receipt, as delivered by the node. -/
structure EvmLog where
  blockNumber : Int
  logIndex : Nat
  address : Nat
  data : Nat
  topics : List Nat
deriving DecidableEq, Repr

/-- A transaction receipt, as delivered by the node. -/
structure Receipt where
  status : Option Nat
  contractAddress : Option Nat
  logs : List EvmLog
deriving DecidableEq, Repr

/-- A transaction of a fetched block.  `from` is a Lean keyword, hence
`fromAddr` / `toAddr`. -/
structure EvmTx where
  hash : Nat
  nonce : Nat
  transactionIndex : Nat
  fromAddr : Nat
  toAddr : Option Nat
  value : Nat
  gasPrice : Nat
  gas : Nat
  input : Nat
  v : Nat
  r : Nat
  s : Nat
deriving DecidableEq, Repr

/-- A block as delivered by the node client getBlock. -/
structure EvmBlock where
  number : Int
  hash : Nat
  parentHash : Nat
  nonce : Nat
  gasLimit : Nat
  gasUsed : Nat
  timestamp : Nat
  sha3Uncles : Nat
  logsBloom : Nat
  transactionsRoot : Nat
  receiptsRoot : Nat
  stateRoot : Nat
  mixHash : Nat
  miner : Nat
  difficulty : Nat
  extraData : Nat
  size : Nat
  transactions : List EvmTx
  uncles : List Nat
deriving DecidableEq, Repr

/-- A stored block row (the 17 fields passed to BlockQueries.addBlock). -/
structure BlockRow where
  blockchain_id : Nat
  number : Int
  hash : Nat
  parentHash : Nat
  nonce : Nat
  gasLimit : Nat
  gasUsed : Nat
  timestamp : Nat
  sha3Uncles : Nat
  logsBloom : Nat
  transactionsRoot : Nat
  receiptsRoot : Nat
  stateRoot : Nat
  mixHash : Nat
  miner : Nat
  difficulty : Nat
  extraData : Nat
  size : Nat
deriving DecidableEq, Repr

/-- A stored transaction row (the fields passed to
TransactionQueries.addTransaction). -/
structure TxRow where
  block_hash : Nat
  hash : Nat
  nonce : Nat
  transactionIndex : Nat
  fromAddr : Nat
  toAddr : Option Nat
  value : Nat
  gasPrice : Nat
  gas : Nat
  input : Nat
  status : Option Nat
  contractAddress : Option Nat
  v : Nat
  r : Nat
  s : Nat
deriving DecidableEq, Repr

/-- A stored log row; log_id is assigned by the store. -/
structure LogRow where
  log_id : Nat
  transaction_hash : Nat
  block_number : Int
  log_index : Nat
  address : Nat
  data : Nat
  topics : List Nat
deriving DecidableEq, Repr

/-- A stored ommer row (BlockQueries.addOmmer arguments). -/
structure OmmerRow where
  blockchain_id : Nat
  hash : Nat
  nibling_block_hash : Nat
deriving DecidableEq, Repr

/-- The relational store.  `nextLogId` is the sequence backing log_id. -/
structure DB where
  blocks : List BlockRow
  txs : List TxRow
  logs : List LogRow
  ommers : List OmmerRow
  nextLogId : Nat
deriving DecidableEq, Repr

def DB.empty : DB := ⟨[], [], [], [], 0⟩

/-- Modelled from the spec: BlockQueries.getBlockByHash is not under src;
per spec section 6 it returns 0 or 1 row keyed by (blockchain_id, hash),
which is unique by the data-model invariant. -/
def DB.getBlockByHash (db : DB) (bid h : Nat) : List BlockRow :=
  db.blocks.filter (fun row => row.blockchain_id == bid && row.hash == h)

/-- Modelled from the spec: the transaction_count of a block row is a derived
attribute (spec section 3); it is the number of stored transaction rows
referencing the block hash. -/
def DB.transactionCountOf (db : DB) (h : Nat) : Nat :=
  (db.txs.filter (fun t => t.block_hash == h)).length

/-- Hashes of all stored block rows at a height (reorgs can leave several). -/
def DB.blockHashesAt (db : DB) (bid : Nat) (n : Int) : List Nat :=
  (db.blocks.filter (fun row => row.blockchain_id == bid && row.number == n)).map
    (fun row => row.hash)

/-- Modelled from the spec: BlockQueries.getBlockTransactionCount is not
under src; per spec section 6 it returns the stored transaction count at a
height summed across all block rows at that height. -/
def DB.getBlockTransactionCount (db : DB) (bid : Nat) (n : Int) : Nat :=
  (db.txs.filter (fun t => (db.blockHashesAt bid n).contains t.block_hash)).length

/-- Modelled from the spec: TransactionQueries.deleteLogs(blockchain_id, n)
deletes all logs at the height (spec section 6). -/
def DB.deleteLogsAtHeight (db : DB) (_bid : Nat) (n : Int) : DB :=
  { db with logs := db.logs.filter (fun l => !(l.block_number == n)) }

/-- Modelled from the spec: TransactionQueries.deleteTransactions deletes
all transactions belonging to block rows at the height. -/
def DB.deleteTransactionsAtHeight (db : DB) (bid : Nat) (n : Int) : DB :=
  { db with txs := db.txs.filter (fun t => !((db.blockHashesAt bid n).contains t.block_hash)) }

/-- TransactionQueries.deleteLogsByTransactionHash. -/
def DB.deleteLogsByTransactionHash (db : DB) (h : Nat) : DB :=
  { db with logs := db.logs.filter (fun l => !(l.transaction_hash == h)) }

/-- BlockQueries.addOmmer(blockchain_id, ommer_hash, nibling_hash). -/
def DB.addOmmer (db : DB) (bid ommer nibling : Nat) : DB :=
  { db with ommers := db.ommers ++ [⟨bid, ommer, nibling⟩] }

def DB.addTxRow (db : DB) (row : TxRow) : DB :=
  { db with txs := db.txs ++ [row] }

/-- Inserting a log row assigns the next log_id and returns it
(addLog RETURNING log_id). -/
def DB.addLogRow (db : DB) (mk : Nat → LogRow) : DB × Nat :=
  ({ db with logs := db.logs ++ [mk db.nextLogId], nextLogId := db.nextLogId + 1 },
   db.nextLogId)

def DB.addBlockRow (db : DB) (row : BlockRow) : DB :=
  { db with blocks := db.blocks ++ [row] }

/-- JS falsy coalescing: `x || null` maps 0 (and null) to null. -/
def orNull (o : Option Nat) : Option Nat :=
  match o with
  | some 0 => none
  | x => x

/-- Result of getTransactionReceipt on the node: the promise can resolve
with a receipt, resolve with null, or reject. -/
inductive ReceiptRes where
  | ok (r : Option Receipt)
  | thrown (msg : String)
deriving DecidableEq, Repr

def isSomeRes : ReceiptRes → Bool
  | .ok (some _) => true
  | _ => false

def isThrownRes : ReceiptRes → Bool
  | .thrown _ => true
  | _ => false

/-- One delivery of the node client getBlock callback. -/
inductive Delivery where
  | err (msg : String)
  | noBlock
  | block (b : EvmBlock)
deriving DecidableEq, Repr

/-- The environment: receipts served by the node per transaction hash, and
the row counts the insert queries report (1 on success, 0 when the insert
affected no rows). -/
structure Env where
  receipts : Nat → ReceiptRes
  txInsertRowCount : Nat → Nat
  logInsertRowCount : Nat → Nat → Nat
  blockInsertRowCount : Nat → Nat

/-- Observable actions of the monitor, in program order. -/
inductive Eff where
  | logErr (s : String)
  | logInfo (s : String)
  | cycleNodes
  | sleep (ms : Nat)
  | exitProc (code : Nat)
  | release
  | reenterMainLoop (n : Int)
  | cbAtHead (n : Int)
  | cbAlreadyExists (n : Int) (h : Nat)
  | cbMoveToNext (n : Int)
  | cbFoundDuringReview (n : Int) (h : Nat)
  | insertBlockRow (h : Nat)
  | sqlBegin
  | sqlCommit
  | sqlRollback
  | decodeLog (logId : Nat)
  | jsThrow (s : String)
deriving DecidableEq, Repr

def Eff.isCursor : Eff → Bool
  | .reenterMainLoop _ => true
  | .cbAtHead _ => true
  | .cbAlreadyExists _ _ => true
  | .cbMoveToNext _ => true
  | _ => false

def Eff.isCycleCall : Eff → Bool
  | .cycleNodes => true
  | _ => false

def Eff.isExit : Eff → Bool
  | .exitProc _ => true
  | _ => false

def Eff.isThrow : Eff → Bool
  | .jsThrow _ => true
  | _ => false

def Eff.isLogError : Eff → Bool
  | .logErr _ => true
  | _ => false

def Eff.isDecode : Eff → Bool
  | .decodeLog _ => true
  | _ => false

def Eff.isBlockInsert : Eff → Bool
  | .insertBlockRow _ => true
  | _ => false

/-- Which optional continuation handlers the caller registered on a fetch
(mainLoop registers the first three; the short review loop registers only
foundDuringReviewBlock; the comprehensive review loop registers none). -/
structure Callbacks where
  atBlockchainHead : Bool
  blockAlreadyExists : Bool
  moveToNextBlock : Bool
  foundDuringReviewBlock : Bool
deriving DecidableEq, Repr

def mainCallbacks : Callbacks := ⟨true, true, true, false⟩
def shortReviewCallbacks : Callbacks := ⟨false, false, false, true⟩
def noCallbacks : Callbacks := ⟨false, false, false, false⟩

/-- Monitor state from the constructor of CacheMonitor. -/
structure CacheMonitor where
  blockchain_id : Nat
  reviewBlockLimit : Nat
  comprehensiveReviewBlockLimit : Nat
  comprehensiveReviewCounter : Nat
  comprehensiveReviewCountMod : Nat
deriving DecidableEq, Repr

/-- The constructor values: reviewBlockLimit 15,
comprehensiveReviewBlockLimit 100, counter 0, mod 250. -/
def CacheMonitor.start (bid : Nat) : CacheMonitor := ⟨bid, 15, 100, 0, 250⟩

/-- Substring test, as JS String.indexOf(needle) returning a hit. -/
def containsSub (hay needle : List Char) : Bool :=
  (List.range (hay.length + 1)).any (fun i => needle.isPrefixOf (hay.drop i))

/-- The transient-error test of CacheMonitor.getBlock, exactly as written:
the first needle is matched against the raw message (case-sensitive
String.indexOf), the second against the uppercased message. -/
def invalidJsonRpcNeedle : String := "Invalid JSON RPC response"
def connectionTimeoutNeedle : String := "CONNECTION TIMEOUT"

def isTransientError (err : String) : Bool :=
  containsSub err.toList invalidJsonRpcNeedle.toList ||
  containsSub (err.toList.map Char.toUpper) connectionTimeoutNeedle.toList

def cyclingMsg : String :=
  "JSON RPC or connection timeout failure in CacheMonitor getBlock, cycling to next node"
def duplicateCycleMsg : String :=
  "Received duplicate local timeout or JSON RPC error, already cycled"
def unknownErrorMsg (m : String) : String := "Unknown error: " ++ m
def promisesFailedMsg : String := "Promises failed for retrieving all block data"
def receiptMissingMsg : String :=
  "Transaction receipt not found for block, dropping out to be re-inserted at a later iteration"
def noTxRowResultMsg : String := "No result returned for transaction in block"
def noBlockRowResultMsg : String := "No result returned for block"
def staleTxMsg : String := "found stale transactions at this height"
def reinstatedMsg : String := "At a re-instated block, restoring data"
def foundNewBlockMsg : String := "Found new block"
def logStoreFailMsg : String := "Could not store log for transaction"
def undefinedCountMsg : String :=
  "TypeError: cannot read properties of undefined, reading count"

/-- Result of one per-transaction task of the persister. -/
inductive TxTaskResult where
  | resolvedSkip
  | resolvedOk
  | fatal
  | rejected (msg : String)
deriving DecidableEq, Repr

structure TxOut where
  db : DB
  effs : List Eff
  res : TxTaskResult
deriving DecidableEq, Repr

/-- The stored log row built from the addLog arguments. -/
def mkLogRow (txh lid : Nat) (l : EvmLog) : LogRow :=
  ⟨lid, txh, l.blockNumber, l.logIndex, l.address, l.data, l.topics⟩

/-- The log insertion loop at the end of CacheMonitor.getTransaction: a
zero-rowcount addLog is logged and skipped (continue), otherwise the row
is inserted and the decoder is called with the returned log_id. -/
def addLogsLoop (env : Env) (txh : Nat) : DB → Nat → List EvmLog → DB × List Eff
  | db, _, [] => (db, [])
  | db, idx, l :: rest =>
    if env.logInsertRowCount txh idx == 0 then
      let r := addLogsLoop env txh db (idx + 1) rest
      (r.1, Eff.logErr logStoreFailMsg :: r.2)
    else
      let ins := db.addLogRow (fun lid => mkLogRow txh lid l)
      let r := addLogsLoop env txh ins.1 (idx + 1) rest
      (r.1, Eff.decodeLog ins.2 :: r.2)

/-- The stored transaction row built from the addTransaction arguments. -/
def mkTxRow (block_hash : Nat) (t : EvmTx) (rec : Receipt) : TxRow :=
  ⟨block_hash, t.hash, t.nonce, t.transactionIndex, t.fromAddr, t.toAddr, t.value,
   t.gasPrice, t.gas, t.input, orNull rec.status, orNull rec.contractAddress, t.v, t.r, t.s⟩

/-- CacheMonitor.getTransaction: fetch the receipt (a null receipt is
skipped silently, a rejected fetch rejects the task), insert the
transaction (zero rows affected releases the connection and exits), then
delete and re-insert the logs of the receipt. -/
def getTransaction (env : Env) (db : DB) (block_hash : Nat) (t : EvmTx) : TxOut :=
  match env.receipts t.hash with
  | .thrown msg => ⟨db, [], .rejected msg⟩
  | .ok none => ⟨db, [Eff.logInfo receiptMissingMsg], .resolvedSkip⟩
  | .ok (some rec) =>
    if env.txInsertRowCount t.hash == 0 then
      ⟨db, [Eff.release, Eff.logErr noTxRowResultMsg, Eff.exitProc 1], .fatal⟩
    else
      let db1 := db.addTxRow (mkTxRow block_hash t rec)
      if rec.logs.isEmpty then
        ⟨db1, [], .resolvedOk⟩
      else
        let db2 := db1.deleteLogsByTransactionHash t.hash
        let r := addLogsLoop env t.hash db2 0 rec.logs
        ⟨r.1, r.2, .resolvedOk⟩

inductive TasksOutcome where
  | allResolved
  | someRejected (msg : String)
  | fatalled
deriving DecidableEq, Repr

structure TasksOut where
  db : DB
  effs : List Eff
  outcome : TasksOutcome
deriving DecidableEq, Repr

/-- Running the per-transaction tasks of one block.  A fatal task kills
the process at once; a rejection is remembered (Promise.all rejects with
the first rejection reason) while the remaining started tasks still run. -/
def runTxTasks (env : Env) (block_hash : Nat) : DB → List EvmTx → TasksOut
  | db, [] => ⟨db, [], .allResolved⟩
  | db, t :: ts =>
    let r1 := getTransaction env db block_hash t
    match r1.res with
    | .fatal => ⟨r1.db, r1.effs, .fatalled⟩
    | .rejected msg =>
      let r2 := runTxTasks env block_hash r1.db ts
      ⟨r2.db, r1.effs ++ r2.effs,
       match r2.outcome with
       | .fatalled => .fatalled
       | _ => .someRejected msg⟩
    | .resolvedSkip =>
      let r2 := runTxTasks env block_hash r1.db ts
      ⟨r2.db, r1.effs ++ r2.effs, r2.outcome⟩
    | .resolvedOk =>
      let r2 := runTxTasks env block_hash r1.db ts
      ⟨r2.db, r1.effs ++ r2.effs, r2.outcome⟩

/-- The addOmmers loop. -/
def addOmmersAll (bid nibling : Nat) : DB → List Nat → DB
  | db, [] => db
  | db, u :: us => addOmmersAll bid nibling (db.addOmmer bid u nibling) us

structure StepOut where
  db : DB
  effs : List Eff
deriving DecidableEq, Repr

/-- The writes inside the transaction that precede the per-transaction
tasks: delete logs and transactions at the height of the block, then insert
the ommers if there are any. -/
def assocPrep (M : CacheMonitor) (db : DB) (block : EvmBlock) : DB :=
  let db1 := (db.deleteLogsAtHeight M.blockchain_id block.number).deleteTransactionsAtHeight
      M.blockchain_id block.number
  if block.uncles.isEmpty then db1
  else addOmmersAll M.blockchain_id block.hash db1 block.uncles

/-- The join of the per-transaction tasks: COMMIT and signal
moveToNextBlock when all resolved; on a rejection ROLLBACK (restoring the
state `db` the transaction began with), sleep 1000 ms, log and exit 1; a
fatal task already exited mid-transaction, discarding the uncommitted
writes. -/
def storeFinish (cbs : Callbacks) (db : DB) (block : EvmBlock) (r : TasksOut) : StepOut :=
  match r with
  | ⟨rdb, reffs, .allResolved⟩ =>
    ⟨rdb, Eff.sqlBegin :: reffs ++
      Eff.sqlCommit :: (if cbs.moveToNextBlock then [Eff.cbMoveToNext block.number] else [])⟩
  | ⟨_, reffs, .someRejected msg⟩ =>
    ⟨db, Eff.sqlBegin :: reffs ++
      [Eff.sqlRollback, Eff.sleep 1000, Eff.logErr promisesFailedMsg,
       Eff.logErr msg, Eff.exitProc 1]⟩
  | ⟨_, reffs, .fatalled⟩ => ⟨db, Eff.sqlBegin :: reffs⟩

/-- storeBlockAssocData: BEGIN, delete logs and transactions at the
height of the block, insert ommers, run the per-transaction tasks, and join. -/
def storeBlockAssocData (env : Env) (M : CacheMonitor) (cbs : Callbacks)
    (db : DB) (block : EvmBlock) : StepOut :=
  storeFinish cbs db block
    (runTxTasks env block.hash (assocPrep M db block) block.transactions)

/-- The block row built from the 17 addBlock arguments. -/
def mkBlockRow (bid : Nat) (b : EvmBlock) : BlockRow :=
  ⟨bid, b.number, b.hash, b.parentHash, b.nonce, b.gasLimit, b.gasUsed, b.timestamp,
   b.sha3Uncles, b.logsBloom, b.transactionsRoot, b.receiptsRoot, b.stateRoot,
   b.mixHash, b.miner, b.difficulty, b.extraData, b.size⟩

/-- The branch of the reconciler reached when the fetched hash matches a
stored row whose transaction_count equals the fetched count, parameterised
over the rows returned by getBlockTransactionCount.  An empty result makes
the JS else-branch dereference rows[0] of an empty result set inside a
template literal, throwing a TypeError before any re-persist begins. -/
def staleCheckStep (env : Env) (M : CacheMonitor) (cbs : Callbacks)
    (db : DB) (b : EvmBlock) (n : Int) (numRows : List Nat) : StepOut :=
  match numRows with
  | [] => ⟨db, [Eff.jsThrow undefinedCountMsg]⟩
  | c :: _ =>
    if b.transactions.length == c then
      ⟨db, if cbs.blockAlreadyExists then [Eff.cbAlreadyExists n b.hash] else []⟩
    else
      ⟨(storeBlockAssocData env M cbs db b).db,
       Eff.logInfo staleTxMsg :: (storeBlockAssocData env M cbs db b).effs⟩

/-- The path for a block whose hash is not stored yet: emit the review
signal when registered, insert the block row (zero rows affected releases
the connection and exits), then write the associated data. -/
def newBlockStep (env : Env) (M : CacheMonitor) (cbs : Callbacks)
    (db : DB) (b : EvmBlock) (n : Int) : StepOut :=
  let pre := if cbs.foundDuringReviewBlock then [Eff.cbFoundDuringReview n b.hash]
             else [Eff.logInfo foundNewBlockMsg]
  if env.blockInsertRowCount b.hash == 0 then
    ⟨db, pre ++ [Eff.release, Eff.logErr noBlockRowResultMsg, Eff.exitProc 1]⟩
  else
    ⟨(storeBlockAssocData env M cbs (db.addBlockRow (mkBlockRow M.blockchain_id b)) b).db,
     pre ++ Eff.insertBlockRow b.hash ::
       (storeBlockAssocData env M cbs (db.addBlockRow (mkBlockRow M.blockchain_id b)) b).effs⟩

/-- The reconciler of CacheMonitor.getBlock for a delivered block. -/
def reconcileBlock (env : Env) (M : CacheMonitor) (cbs : Callbacks)
    (db : DB) (n : Int) (b : EvmBlock) : StepOut :=
  match db.getBlockByHash M.blockchain_id b.hash with
  | [] => newBlockStep env M cbs db b n
  | _ :: _ =>
    if b.transactions.length == db.transactionCountOf b.hash then
      staleCheckStep env M cbs db b n [db.getBlockTransactionCount M.blockchain_id n]
    else
      ⟨(storeBlockAssocData env M cbs db b).db,
       Eff.logInfo reinstatedMsg :: (storeBlockAssocData env M cbs db b).effs⟩

structure FetchOut where
  db : DB
  effs : List Eff
  flag : Bool
deriving DecidableEq, Repr

/-- One delivery of the getBlock node callback.  `flag` is the
localErrorRecovered lock of the enclosing getBlock call: a transient error
cycles the nodes and re-enters the cursor loop at the fetched height only
when the flag is still clear; a duplicate transient delivery is absorbed. -/
def processDelivery (env : Env) (M : CacheMonitor) (cbs : Callbacks)
    (n : Int) (db : DB) (flag : Bool) : Delivery → FetchOut
  | .err msg =>
    if isTransientError msg then
      if flag then ⟨db, [Eff.logErr duplicateCycleMsg], flag⟩
      else ⟨db, [Eff.logErr cyclingMsg, Eff.cycleNodes, Eff.reenterMainLoop n], true⟩
    else ⟨db, [Eff.logErr (unknownErrorMsg msg), Eff.sleep 2500, Eff.exitProc 1], flag⟩
  | .noBlock =>
    ⟨db, if cbs.atBlockchainHead then [Eff.cbAtHead n] else [], flag⟩
  | .block b =>
    ⟨(reconcileBlock env M cbs db n b).db, (reconcileBlock env M cbs db n b).effs, flag⟩

/-- Folding several deliveries of one getBlock call, threading the
localErrorRecovered flag. -/
def processDeliveries (env : Env) (M : CacheMonitor) (cbs : Callbacks)
    (n : Int) : DB → Bool → List Delivery → FetchOut
  | db, flag, [] => ⟨db, [], flag⟩
  | db, flag, d :: ds =>
    ⟨(processDeliveries env M cbs n (processDelivery env M cbs n db flag d).db
        (processDelivery env M cbs n db flag d).flag ds).db,
     (processDelivery env M cbs n db flag d).effs ++
       (processDeliveries env M cbs n (processDelivery env M cbs n db flag d).db
         (processDelivery env M cbs n db flag d).flag ds).effs,
     (processDeliveries env M cbs n (processDelivery env M cbs n db flag d).db
         (processDelivery env M cbs n db flag d).flag ds).flag⟩

/-- Integer interval [lo, hi) as a list, the heights visited by the JS
for-loops of the review scheduler. -/
def intRange (lo hi : Int) : List Int :=
  (List.range (hi - lo).toNat).map (fun (i : Nat) => lo + (i : Int))

/-- The plan the atBlockchainHead handler executes: which prior heights it
fetches (with which callbacks), how long it sleeps, and at which height it
re-enters the cursor loop. -/
structure AtHeadPlan where
  reviewCalls : List (Int × Callbacks)
  sleepMs : Nat
  reenter : Int
deriving DecidableEq, Repr

/-- The atBlockchainHead handler of CacheMonitor.mainLoop: pre-increment
the comprehensive review counter; on a multiple of the count mod, review
the comprehensive window with no callbacks and sleep 15000 ms, otherwise
review the short window with the foundDuringReviewBlock callback and sleep
2500 ms; then re-enter mainLoop at the same height. -/
def atBlockchainHeadHandler (M : CacheMonitor) (n : Int) : CacheMonitor × AtHeadPlan :=
  let c := M.comprehensiveReviewCounter + 1
  let M' := { M with comprehensiveReviewCounter := c }
  if c % M.comprehensiveReviewCountMod == 0 then
    (M', ⟨(intRange (n - (M.comprehensiveReviewBlockLimit : Int)) (n - 1)).map
            (fun p => (p, noCallbacks)), 15000, n⟩)
  else
    (M', ⟨(intRange (n - (M.reviewBlockLimit : Int)) (n - 1)).map
            (fun p => (p, shortReviewCallbacks)), 2500, n⟩)

/-- The blockAlreadyExists handler of mainLoop: move to the next block. -/
def blockAlreadyExistsNext (n : Int) : Int := n + 1

/-- The moveToNextBlock handler of mainLoop: move to the next block. -/
def moveToNextBlockNext (n : Int) : Int := n + 1

/-- Effects that the per-transaction task can produce. -/
def txEff : Eff → Bool
  | .logInfo _ => true
  | .logErr _ => true
  | .release => true
  | .exitProc _ => true
  | .decodeLog _ => true
  | _ => false

/-- Effects that storeBlockAssocData can produce, given the registered
callbacks. -/
def persistEff (cbs : Callbacks) : Eff → Bool
  | .logInfo _ => true
  | .logErr _ => true
  | .release => true
  | .exitProc _ => true
  | .decodeLog _ => true
  | .sqlBegin => true
  | .sqlCommit => true
  | .sqlRollback => true
  | .sleep ms => ms == 1000
  | .cbMoveToNext _ => cbs.moveToNextBlock
  | _ => false

/-- Effects that the reconciler (a delivered block) can produce, given the
registered callbacks. -/
def reconEff (cbs : Callbacks) : Eff → Bool
  | .cbAlreadyExists _ _ => cbs.blockAlreadyExists
  | .cbFoundDuringReview _ _ => cbs.foundDuringReviewBlock
  | .insertBlockRow _ => true
  | .jsThrow _ => true
  | e => persistEff cbs e

/-- The enumerated receipt logs whose insert reports a nonzero row count;
stated from the spec wording of the skip rule (a zero-rowcount log insert
is skipped, the rest continue), to be compared with the code-side
addLogsLoop. -/
def keptEnum (env : Env) (txh : Nat) (idx : Nat) (logs : List EvmLog) : List (Nat × EvmLog) :=
  ((List.range' idx logs.length).zip logs).filter
    (fun p => !(env.logInsertRowCount txh p.1 == 0))

def recPlain : Receipt := ⟨some 1, none, []⟩

def envAllOk : Env := ⟨fun _ => ReceiptRes.ok (some recPlain), fun _ => 1, fun _ _ => 1, fun _ => 1⟩

def monitorOne : CacheMonitor := CacheMonitor.start 1

def tx31 : EvmTx := ⟨31, 0, 0, 0, none, 0, 0, 0, 0, 0, 0, 0⟩
def tx32 : EvmTx := ⟨32, 0, 0, 0, none, 0, 0, 0, 0, 0, 0, 0⟩

def blockRow7 : BlockRow := ⟨1, 3, 7, 0, 0, 0, 0, 0, 0, 0, 0, 0, 0, 0, 0, 0, 0, 0⟩
def txRow31 : TxRow := ⟨7, 31, 0, 0, 0, none, 0, 0, 0, 0, none, none, 0, 0, 0⟩
def txRow32 : TxRow := ⟨7, 32, 0, 0, 0, none, 0, 0, 0, 0, none, none, 0, 0, 0⟩

def db5 : DB := ⟨[blockRow7], [txRow31, txRow32], [], [], 0⟩
def b5 : EvmBlock := ⟨3, 7, 0, 0, 0, 0, 0, 0, 0, 0, 0, 0, 0, 0, 0, 0, 0, [tx31, tx32], []⟩

def db6 : DB := ⟨[blockRow7], [], [], [], 0⟩
def b6 : EvmBlock := ⟨3, 7, 0, 0, 0, 0, 0, 0, 0, 0, 0, 0, 0, 0, 0, 0, 0, [tx31], []⟩

def boomMsg : String := "boom"

def bC2 : EvmBlock := ⟨9, 21, 0, 0, 0, 0, 0, 0, 0, 0, 0, 0, 0, 0, 0, 0, 0, [tx31], []⟩

def envC2 : Env :=
  ⟨fun h => if h == 31 then ReceiptRes.thrown boomMsg else ReceiptRes.ok (some recPlain),
   fun _ => 1, fun _ _ => 1, fun _ => 1⟩

def logA : EvmLog := ⟨3, 0, 5, 100, [1, 2]⟩
def logB : EvmLog := ⟨3, 1, 5, 200, [1]⟩
def recC8 : Receipt := ⟨some 1, none, [logA, logB]⟩

def envC8 : Env :=
  ⟨fun h => if h == 31 then ReceiptRes.ok (some recC8) else ReceiptRes.ok none,
   fun _ => 1, fun h i => if h == 31 && i == 0 then 0 else 1, fun _ => 1⟩

def envC9 : Env :=
  ⟨fun h => if h == 32 then ReceiptRes.ok (some recPlain) else ReceiptRes.ok none,
   fun _ => 1, fun _ _ => 1, fun _ => 1⟩

def b9 : EvmBlock := ⟨3, 7, 0, 0, 0, 0, 0, 0, 0, 0, 0, 0, 0, 0, 0, 0, 0, [tx31, tx32], []⟩

def upperInvalidMsg : String := "INVALID JSON RPC RESPONSE"

theorem mem_intRange (lo hi h : Int) : h ∈ intRange lo hi ↔ lo ≤ h ∧ h < hi := by
  unfold intRange
  rw [List.mem_map]
  constructor
  · rintro ⟨i, hi', rfl⟩
    rw [List.mem_range] at hi'
    omega
  · rintro ⟨h1, h2⟩
    exact ⟨(h - lo).toNat, by rw [List.mem_range]; omega, by omega⟩

theorem addLogsLoop_effs (env : Env) (txh : Nat) :
    ∀ (logs : List EvmLog) (idx : Nat) (db : DB),
      ∀ e ∈ (addLogsLoop env txh db idx logs).2, txEff e = true := by
  intro logs
  induction logs with
  | nil => intro idx db e he; simp [addLogsLoop] at he
  | cons l rest ih =>
    intro idx db e he
    by_cases h : env.logInsertRowCount txh idx == 0
    · simp only [addLogsLoop, h, if_pos, List.mem_cons] at he
      rcases he with rfl | he
      · rfl
      · exact ih _ _ e he
    · simp only [addLogsLoop, h, if_neg, Bool.false_eq_true, not_false_iff, List.mem_cons] at he
      rcases he with rfl | he
      · rfl
      · exact ih _ _ e he

theorem addLogsLoop_shape (env : Env) (txh : Nat) :
    ∀ (logs : List EvmLog) (idx : Nat) (db : DB),
      (addLogsLoop env txh db idx logs).1.blocks = db.blocks ∧
      (addLogsLoop env txh db idx logs).1.txs = db.txs ∧
      (addLogsLoop env txh db idx logs).1.ommers = db.ommers := by
  intro logs
  induction logs with
  | nil => intro idx db; simp [addLogsLoop]
  | cons l rest ih =>
    intro idx db
    by_cases h : env.logInsertRowCount txh idx == 0
    · simpa only [addLogsLoop, h, if_pos] using ih (idx + 1) db
    · simp only [addLogsLoop, h, if_neg, Bool.false_eq_true, not_false_iff]
      have := ih (idx + 1) (db.addLogRow (fun lid => mkLogRow txh lid l)).1
      simpa [DB.addLogRow] using this

theorem getTransaction_effs (env : Env) (db : DB) (bh : Nat) (t : EvmTx) :
    ∀ e ∈ (getTransaction env db bh t).effs, txEff e = true := by
  intro e he
  unfold getTransaction at he
  cases hr : env.receipts t.hash with
  | thrown m => rw [hr] at he; simp at he
  | ok o =>
    cases o with
    | none =>
      rw [hr] at he
      simp at he
      subst he
      rfl
    | some rec =>
      rw [hr] at he
      by_cases h0 : env.txInsertRowCount t.hash == 0
      · simp [h0] at he
        rcases he with rfl | rfl | rfl <;> rfl
      · by_cases hl : rec.logs.isEmpty
        · simp [h0, hl] at he
        · simp [h0, hl] at he
          exact addLogsLoop_effs env t.hash rec.logs 0 _ e he

theorem getTransaction_shape (env : Env) (db : DB) (bh : Nat) (t : EvmTx) :
    (getTransaction env db bh t).db.blocks = db.blocks ∧
    (getTransaction env db bh t).db.ommers = db.ommers := by
  unfold getTransaction
  cases hr : env.receipts t.hash with
  | thrown m => simp
  | ok o =>
    cases o with
    | none => simp
    | some rec =>
      by_cases h0 : env.txInsertRowCount t.hash == 0
      · simp [h0]
      · by_cases hl : rec.logs.isEmpty
        · simp [h0, hl, DB.addTxRow]
        · simp only [h0, hl, Bool.false_eq_true, if_neg, not_false_iff]
          have := addLogsLoop_shape env t.hash rec.logs 0
            ((db.addTxRow (mkTxRow bh t rec)).deleteLogsByTransactionHash t.hash)
          simp [DB.addTxRow, DB.deleteLogsByTransactionHash] at this ⊢
          exact ⟨this.1, this.2.2⟩

theorem getTransaction_txs (env : Env) (db : DB) (bh : Nat) (t : EvmTx) :
    (getTransaction env db bh t).db.txs = db.txs ∨
    (isSomeRes (env.receipts t.hash) = true ∧
      ∃ rec, env.receipts t.hash = ReceiptRes.ok (some rec) ∧
        (getTransaction env db bh t).db.txs = db.txs ++ [mkTxRow bh t rec]) := by
  unfold getTransaction
  cases hr : env.receipts t.hash with
  | thrown m => left; simp
  | ok o =>
    cases o with
    | none => left; simp
    | some rec =>
      by_cases h0 : env.txInsertRowCount t.hash == 0
      · left; simp [h0]
      · right
        refine ⟨by simp [isSomeRes], rec, rfl, ?_⟩
        by_cases hl : rec.logs.isEmpty
        · simp [h0, hl, DB.addTxRow]
        · simp only [h0, hl, Bool.false_eq_true, if_neg, not_false_iff]
          have := addLogsLoop_shape env t.hash rec.logs 0
            ((db.addTxRow (mkTxRow bh t rec)).deleteLogsByTransactionHash t.hash)
          simp [DB.addTxRow, DB.deleteLogsByTransactionHash] at this ⊢
          exact this.2.1

theorem isSomeRes_iff (r : ReceiptRes) :
    isSomeRes r = true ↔ ∃ rec, r = ReceiptRes.ok (some rec) := by
  cases r with
  | ok o => cases o <;> simp [isSomeRes]
  | thrown m => simp [isSomeRes]

theorem addLogsLoop_effs_kind (env : Env) (txh : Nat) :
    ∀ (logs : List EvmLog) (idx : Nat) (db : DB),
      ∀ e ∈ (addLogsLoop env txh db idx logs).2,
        Eff.isLogError e = true ∨ Eff.isDecode e = true := by
  intro logs
  induction logs with
  | nil => intro idx db e he; simp [addLogsLoop] at he
  | cons l rest ih =>
    intro idx db e he
    by_cases h : env.logInsertRowCount txh idx == 0
    · simp only [addLogsLoop, h, if_pos, List.mem_cons] at he
      rcases he with rfl | he
      · left; rfl
      · exact ih _ _ e he
    · simp only [addLogsLoop, h, if_neg, Bool.false_eq_true, not_false_iff, List.mem_cons] at he
      rcases he with rfl | he
      · right; rfl
      · exact ih _ _ e he

theorem getTransaction_no_exit (env : Env) (db : DB) (bh : Nat) (t : EvmTx)
    (h : isSomeRes (env.receipts t.hash) = true → env.txInsertRowCount t.hash ≠ 0) :
    ∀ e ∈ (getTransaction env db bh t).effs, Eff.isExit e = false := by
  intro e he
  unfold getTransaction at he
  cases hr : env.receipts t.hash with
  | thrown m => rw [hr] at he; simp at he
  | ok o =>
    cases o with
    | none =>
      rw [hr] at he
      simp at he
      subst he
      rfl
    | some rec =>
      rw [hr] at he
      have h0 : env.txInsertRowCount t.hash ≠ 0 := by
        apply h; rw [hr]; rfl
      have h0' : (env.txInsertRowCount t.hash == 0) = false := by
        simpa using h0
      by_cases hl : rec.logs.isEmpty
      · simp [h0', hl] at he
      · simp [h0', hl] at he
        rcases addLogsLoop_effs_kind env t.hash rec.logs 0 _ e he with hk | hk <;>
          (cases e <;> simp_all [Eff.isLogError, Eff.isDecode, Eff.isExit])

theorem getTransaction_not_fatal (env : Env) (db : DB) (bh : Nat) (t : EvmTx)
    (h : isSomeRes (env.receipts t.hash) = true → env.txInsertRowCount t.hash ≠ 0) :
    (getTransaction env db bh t).res ≠ TxTaskResult.fatal := by
  unfold getTransaction
  cases hr : env.receipts t.hash with
  | thrown m => simp
  | ok o =>
    cases o with
    | none => simp
    | some rec =>
      have h0 : (env.txInsertRowCount t.hash == 0) = false := by
        simpa using h (by rw [hr]; rfl)
      by_cases hl : rec.logs.isEmpty
      · simp [h0, hl]
      · simp [h0, hl]

theorem getTransaction_rejected_of (env : Env) (db : DB) (bh : Nat) (t : EvmTx) (msg : String)
    (h : (getTransaction env db bh t).res = TxTaskResult.rejected msg) :
    isThrownRes (env.receipts t.hash) = true := by
  unfold getTransaction at h
  cases hr : env.receipts t.hash with
  | thrown m => rfl
  | ok o =>
    rw [hr] at h
    cases o with
    | none => simp at h
    | some rec =>
      by_cases h0 : env.txInsertRowCount t.hash == 0
      · simp [h0] at h
      · by_cases hl : rec.logs.isEmpty
        · simp [h0, hl] at h
        · simp [h0, hl] at h

theorem runTxTasks_effs (env : Env) (bh : Nat) :
    ∀ (ts : List EvmTx) (db : DB),
      ∀ e ∈ (runTxTasks env bh db ts).effs, txEff e = true := by
  intro ts
  induction ts with
  | nil => intro db e he; simp [runTxTasks] at he
  | cons t rest ih =>
    intro db e he
    cases hres : (getTransaction env db bh t).res with
    | fatal =>
      simp only [runTxTasks, hres] at he
      exact getTransaction_effs env db bh t e he
    | rejected msg =>
      simp only [runTxTasks, hres, List.mem_append] at he
      rcases he with he | he
      · exact getTransaction_effs env db bh t e he
      · exact ih _ e he
    | resolvedSkip =>
      simp only [runTxTasks, hres, List.mem_append] at he
      rcases he with he | he
      · exact getTransaction_effs env db bh t e he
      · exact ih _ e he
    | resolvedOk =>
      simp only [runTxTasks, hres, List.mem_append] at he
      rcases he with he | he
      · exact getTransaction_effs env db bh t e he
      · exact ih _ e he

theorem runTxTasks_blocks (env : Env) (bh : Nat) :
    ∀ (ts : List EvmTx) (db : DB),
      (runTxTasks env bh db ts).db.blocks = db.blocks ∧
      (runTxTasks env bh db ts).db.ommers = db.ommers := by
  intro ts
  induction ts with
  | nil => intro db; simp [runTxTasks]
  | cons t rest ih =>
    intro db
    have hg := getTransaction_shape env db bh t
    cases hres : (getTransaction env db bh t).res with
    | fatal => simp only [runTxTasks, hres]; exact hg
    | rejected msg =>
      simp only [runTxTasks, hres]
      have := ih (getTransaction env db bh t).db
      exact ⟨this.1.trans hg.1, this.2.trans hg.2⟩
    | resolvedSkip =>
      simp only [runTxTasks, hres]
      have := ih (getTransaction env db bh t).db
      exact ⟨this.1.trans hg.1, this.2.trans hg.2⟩
    | resolvedOk =>
      simp only [runTxTasks, hres]
      have := ih (getTransaction env db bh t).db
      exact ⟨this.1.trans hg.1, this.2.trans hg.2⟩

theorem runTxTasks_no_exit (env : Env) (bh : Nat) :
    ∀ (ts : List EvmTx) (db : DB),
      (∀ u ∈ ts, isSomeRes (env.receipts u.hash) = true → env.txInsertRowCount u.hash ≠ 0) →
      ∀ e ∈ (runTxTasks env bh db ts).effs, Eff.isExit e = false := by
  intro ts
  induction ts with
  | nil => intro db _ e he; simp [runTxTasks] at he
  | cons t rest ih =>
    intro db hok e he
    have hhead := hok t (List.mem_cons_self t rest)
    have htail : ∀ u ∈ rest, isSomeRes (env.receipts u.hash) = true →
        env.txInsertRowCount u.hash ≠ 0 :=
      fun u hu => hok u (List.mem_cons_of_mem t hu)
    cases hres : (getTransaction env db bh t).res with
    | fatal => exact absurd hres (getTransaction_not_fatal env db bh t hhead)
    | rejected msg =>
      simp only [runTxTasks, hres, List.mem_append] at he
      rcases he with he | he
      · exact getTransaction_no_exit env db bh t hhead e he
      · exact ih _ htail e he
    | resolvedSkip =>
      simp only [runTxTasks, hres, List.mem_append] at he
      rcases he with he | he
      · exact getTransaction_no_exit env db bh t hhead e he
      · exact ih _ htail e he
    | resolvedOk =>
      simp only [runTxTasks, hres, List.mem_append] at he
      rcases he with he | he
      · exact getTransaction_no_exit env db bh t hhead e he
      · exact ih _ htail e he

theorem runTxTasks_not_fatalled (env : Env) (bh : Nat) :
    ∀ (ts : List EvmTx) (db : DB),
      (∀ u ∈ ts, isSomeRes (env.receipts u.hash) = true → env.txInsertRowCount u.hash ≠ 0) →
      (runTxTasks env bh db ts).outcome ≠ TasksOutcome.fatalled := by
  intro ts
  induction ts with
  | nil => intro db _; simp [runTxTasks]
  | cons t rest ih =>
    intro db hok
    have hhead := hok t (List.mem_cons_self t rest)
    have htail : ∀ u ∈ rest, isSomeRes (env.receipts u.hash) = true →
        env.txInsertRowCount u.hash ≠ 0 :=
      fun u hu => hok u (List.mem_cons_of_mem t hu)
    cases hres : (getTransaction env db bh t).res with
    | fatal => exact absurd hres (getTransaction_not_fatal env db bh t hhead)
    | rejected msg =>
      simp only [runTxTasks, hres]
      cases hout : (runTxTasks env bh (getTransaction env db bh t).db rest).outcome with
      | fatalled => exact absurd hout (ih _ htail)
      | allResolved => simp
      | someRejected m => simp
    | resolvedSkip =>
      simp only [runTxTasks, hres]
      exact ih _ htail
    | resolvedOk =>
      simp only [runTxTasks, hres]
      exact ih _ htail

theorem runTxTasks_allResolved (env : Env) (bh : Nat) :
    ∀ (ts : List EvmTx) (db : DB),
      (∀ u ∈ ts, isSomeRes (env.receipts u.hash) = true → env.txInsertRowCount u.hash ≠ 0) →
      (∀ u ∈ ts, isThrownRes (env.receipts u.hash) = false) →
      (runTxTasks env bh db ts).outcome = TasksOutcome.allResolved := by
  intro ts
  induction ts with
  | nil => intro db _ _; simp [runTxTasks]
  | cons t rest ih =>
    intro db hok hnt
    have hhead := hok t (List.mem_cons_self t rest)
    have htail : ∀ u ∈ rest, isSomeRes (env.receipts u.hash) = true →
        env.txInsertRowCount u.hash ≠ 0 :=
      fun u hu => hok u (List.mem_cons_of_mem t hu)
    have httail : ∀ u ∈ rest, isThrownRes (env.receipts u.hash) = false :=
      fun u hu => hnt u (List.mem_cons_of_mem t hu)
    cases hres : (getTransaction env db bh t).res with
    | fatal => exact absurd hres (getTransaction_not_fatal env db bh t hhead)
    | rejected msg =>
      have := getTransaction_rejected_of env db bh t msg hres
      rw [hnt t (List.mem_cons_self t rest)] at this
      exact absurd this (by simp)
    | resolvedSkip =>
      simp only [runTxTasks, hres]
      exact ih _ htail httail
    | resolvedOk =>
      simp only [runTxTasks, hres]
      exact ih _ htail httail

theorem getTransaction_thrown_rejects (env : Env) (db : DB) (bh : Nat) (t : EvmTx) (m : String)
    (h : env.receipts t.hash = ReceiptRes.thrown m) :
    getTransaction env db bh t = ⟨db, [], TxTaskResult.rejected m⟩ := by
  unfold getTransaction
  rw [h]

theorem runTxTasks_someRejected (env : Env) (bh : Nat) :
    ∀ (ts : List EvmTx) (db : DB),
      (∀ u ∈ ts, isSomeRes (env.receipts u.hash) = true → env.txInsertRowCount u.hash ≠ 0) →
      (∃ u ∈ ts, isThrownRes (env.receipts u.hash) = true) →
      ∃ m, (runTxTasks env bh db ts).outcome = TasksOutcome.someRejected m := by
  intro ts
  induction ts with
  | nil => intro db _ hex; simp at hex
  | cons t rest ih =>
    intro db hok hex
    have hhead := hok t (List.mem_cons_self t rest)
    have htail : ∀ u ∈ rest, isSomeRes (env.receipts u.hash) = true →
        env.txInsertRowCount u.hash ≠ 0 :=
      fun u hu => hok u (List.mem_cons_of_mem t hu)
    cases hr : env.receipts t.hash with
    | thrown m =>
      have hgt := getTransaction_thrown_rejects env db bh t m hr
      have hres : (getTransaction env db bh t).res = TxTaskResult.rejected m := by rw [hgt]
      refine ⟨m, ?_⟩
      simp only [runTxTasks, hres]
      cases hout : (runTxTasks env bh (getTransaction env db bh t).db rest).outcome with
      | fatalled => exact absurd hout (runTxTasks_not_fatalled env bh rest _ htail)
      | allResolved => simp
      | someRejected m2 => simp
    | ok o =>
      have hthead : isThrownRes (env.receipts t.hash) = false := by
        rw [hr]; rfl
      have hex' : ∃ u ∈ rest, isThrownRes (env.receipts u.hash) = true := by
        rcases hex with ⟨u, hu, hut⟩
        rcases List.mem_cons.mp hu with rfl | hu'
        · rw [hthead] at hut; exact absurd hut (by simp)
        · exact ⟨u, hu', hut⟩
      cases hres : (getTransaction env db bh t).res with
      | fatal => exact absurd hres (getTransaction_not_fatal env db bh t hhead)
      | rejected msg =>
        have := getTransaction_rejected_of env db bh t msg hres
        rw [hthead] at this
        exact absurd this (by simp)
      | resolvedSkip =>
        simp only [runTxTasks, hres]
        exact ih _ htail hex'
      | resolvedOk =>
        simp only [runTxTasks, hres]
        exact ih _ htail hex'

theorem runTxTasks_txs_mono (env : Env) (bh : Nat) :
    ∀ (ts : List EvmTx) (db : DB) (row : TxRow),
      row ∈ db.txs → row ∈ (runTxTasks env bh db ts).db.txs := by
  intro ts
  induction ts with
  | nil => intro db row hrow; simpa [runTxTasks] using hrow
  | cons t rest ih =>
    intro db row hrow
    have hstep : row ∈ (getTransaction env db bh t).db.txs := by
      rcases getTransaction_txs env db bh t with h | ⟨_, rec, _, h⟩
      · rw [h]; exact hrow
      · rw [h]; exact List.mem_append_left _ hrow
    cases hres : (getTransaction env db bh t).res with
    | fatal => simp only [runTxTasks, hres]; exact hstep
    | rejected msg => simp only [runTxTasks, hres]; exact ih _ row hstep
    | resolvedSkip => simp only [runTxTasks, hres]; exact ih _ row hstep
    | resolvedOk => simp only [runTxTasks, hres]; exact ih _ row hstep

theorem runTxTasks_txs_prov (env : Env) (bh : Nat) :
    ∀ (ts : List EvmTx) (db : DB) (row : TxRow),
      row ∈ (runTxTasks env bh db ts).db.txs →
      row ∈ db.txs ∨ ∃ u ∈ ts, row.hash = u.hash ∧ isSomeRes (env.receipts u.hash) = true := by
  intro ts
  induction ts with
  | nil => intro db row hrow; left; simpa [runTxTasks] using hrow
  | cons t rest ih =>
    intro db row hrow
    have hstep : row ∈ (getTransaction env db bh t).db.txs →
        row ∈ db.txs ∨ row.hash = t.hash ∧ isSomeRes (env.receipts t.hash) = true := by
      intro hmem
      rcases getTransaction_txs env db bh t with h | ⟨hs, rec, _, h⟩
      · rw [h] at hmem; exact Or.inl hmem
      · rw [h] at hmem
        rcases List.mem_append.mp hmem with hmem | hmem
        · exact Or.inl hmem
        · right
          have : row = mkTxRow bh t rec := by simpa using hmem
          subst this
          exact ⟨rfl, hs⟩
    have hlift : (row ∈ db.txs ∨ row.hash = t.hash ∧ isSomeRes (env.receipts t.hash) = true) →
        row ∈ db.txs ∨ ∃ u ∈ t :: rest, row.hash = u.hash ∧ isSomeRes (env.receipts u.hash) = true := by
      rintro (h | h)
      · exact Or.inl h
      · exact Or.inr ⟨t, List.mem_cons_self t rest, h⟩
    cases hres : (getTransaction env db bh t).res with
    | fatal =>
      simp only [runTxTasks, hres] at hrow
      exact hlift (hstep hrow)
    | rejected msg =>
      simp only [runTxTasks, hres] at hrow
      rcases ih _ row hrow with h | ⟨u, hu, h⟩
      · exact hlift (hstep h)
      · exact Or.inr ⟨u, List.mem_cons_of_mem t hu, h⟩
    | resolvedSkip =>
      simp only [runTxTasks, hres] at hrow
      rcases ih _ row hrow with h | ⟨u, hu, h⟩
      · exact hlift (hstep h)
      · exact Or.inr ⟨u, List.mem_cons_of_mem t hu, h⟩
    | resolvedOk =>
      simp only [runTxTasks, hres] at hrow
      rcases ih _ row hrow with h | ⟨u, hu, h⟩
      · exact hlift (hstep h)
      · exact Or.inr ⟨u, List.mem_cons_of_mem t hu, h⟩

theorem runTxTasks_inserted (env : Env) (bh : Nat) :
    ∀ (ts : List EvmTx) (db : DB) (u : EvmTx),
      u ∈ ts →
      isSomeRes (env.receipts u.hash) = true →
      (∀ w ∈ ts, isSomeRes (env.receipts w.hash) = true → env.txInsertRowCount w.hash ≠ 0) →
      ∃ row ∈ (runTxTasks env bh db ts).db.txs, row.hash = u.hash ∧ row.block_hash = bh := by
  intro ts
  induction ts with
  | nil => intro db u hu; simp at hu
  | cons t rest ih =>
    intro db u hu hsome hok
    have hhead := hok t (List.mem_cons_self t rest)
    have htail : ∀ w ∈ rest, isSomeRes (env.receipts w.hash) = true →
        env.txInsertRowCount w.hash ≠ 0 :=
      fun w hw => hok w (List.mem_cons_of_mem t hw)
    rcases List.mem_cons.mp hu with rfl | hu'
    · rcases (isSomeRes_iff _).mp hsome with ⟨rec, hrec⟩
      have hmem : mkTxRow bh u rec ∈ (getTransaction env db bh u).db.txs := by
        rcases getTransaction_txs env db bh u with h | ⟨_, rec2, hrec2, h⟩
        · exfalso
          unfold getTransaction at h
          rw [hrec] at h
          have h0 : (env.txInsertRowCount u.hash == 0) = false := by
            simpa using hhead hsome
          by_cases hl : rec.logs.isEmpty
          · simp [h0, hl, DB.addTxRow] at h
          · simp only [h0, hl, Bool.false_eq_true, if_neg, not_false_iff] at h
            have hsh := addLogsLoop_shape env u.hash rec.logs 0
              ((db.addTxRow (mkTxRow bh u rec)).deleteLogsByTransactionHash u.hash)
            rw [hsh.2.1] at h
            simp [DB.addTxRow, DB.deleteLogsByTransactionHash] at h
        · rw [hrec] at hrec2
          injection hrec2 with hrec2
          injection hrec2 with hrec2
          subst hrec2
          rw [h]
          exact List.mem_append_right _ (List.mem_singleton.mpr rfl)
      have hres : (getTransaction env db bh u).res ≠ TxTaskResult.fatal :=
        getTransaction_not_fatal env db bh u hhead
      cases hres2 : (getTransaction env db bh u).res with
      | fatal => exact absurd hres2 hres
      | rejected msg =>
        have := getTransaction_rejected_of env db bh u msg hres2
        rw [hrec] at this
        exact absurd this (by simp [isThrownRes])
      | resolvedSkip =>
        simp only [runTxTasks, hres2]
        exact ⟨mkTxRow bh u rec, runTxTasks_txs_mono env bh rest _ _ hmem, rfl, rfl⟩
      | resolvedOk =>
        simp only [runTxTasks, hres2]
        exact ⟨mkTxRow bh u rec, runTxTasks_txs_mono env bh rest _ _ hmem, rfl, rfl⟩
    · cases hres : (getTransaction env db bh t).res with
      | fatal => exact absurd hres (getTransaction_not_fatal env db bh t hhead)
      | rejected msg =>
        simp only [runTxTasks, hres]
        exact ih _ u hu' hsome htail
      | resolvedSkip =>
        simp only [runTxTasks, hres]
        exact ih _ u hu' hsome htail
      | resolvedOk =>
        simp only [runTxTasks, hres]
        exact ih _ u hu' hsome htail

theorem addOmmersAll_shape (bid nib : Nat) :
    ∀ (us : List Nat) (db : DB),
      (addOmmersAll bid nib db us).blocks = db.blocks ∧
      (addOmmersAll bid nib db us).txs = db.txs ∧
      (addOmmersAll bid nib db us).logs = db.logs := by
  intro us
  induction us with
  | nil => intro db; simp [addOmmersAll]
  | cons u rest ih =>
    intro db
    have := ih (db.addOmmer bid u nib)
    simpa [addOmmersAll, DB.addOmmer] using this

theorem txEff_persistEff (cbs : Callbacks) (e : Eff) (h : txEff e = true) :
    persistEff cbs e = true := by
  cases e <;> simp_all [txEff, persistEff]


theorem assocPrep_blocks (M : CacheMonitor) (db : DB) (b : EvmBlock) :
    (assocPrep M db b).blocks = db.blocks := by
  unfold assocPrep
  by_cases hu : b.uncles.isEmpty
  · simp [hu, DB.deleteLogsAtHeight, DB.deleteTransactionsAtHeight]
  · simp only [hu, Bool.false_eq_true, if_neg, not_false_iff]
    rw [(addOmmersAll_shape M.blockchain_id b.hash b.uncles _).1]
    simp [DB.deleteLogsAtHeight, DB.deleteTransactionsAtHeight]

theorem assocPrep_txs_sub (M : CacheMonitor) (db : DB) (b : EvmBlock) :
    ∀ row ∈ (assocPrep M db b).txs, row ∈ db.txs := by
  intro row hrow
  unfold assocPrep at hrow
  by_cases hu : b.uncles.isEmpty
  · simp only [hu, if_pos] at hrow
    simp [DB.deleteLogsAtHeight, DB.deleteTransactionsAtHeight] at hrow
    exact hrow.1
  · simp only [hu, Bool.false_eq_true, if_neg, not_false_iff] at hrow
    rw [(addOmmersAll_shape M.blockchain_id b.hash b.uncles _).2.1] at hrow
    simp [DB.deleteLogsAtHeight, DB.deleteTransactionsAtHeight] at hrow
    exact hrow.1

theorem storeBlockAssocData_effs (env : Env) (M : CacheMonitor) (cbs : Callbacks)
    (db : DB) (b : EvmBlock) :
    ∀ e ∈ (storeBlockAssocData env M cbs db b).effs, persistEff cbs e = true := by
  intro e he
  unfold storeBlockAssocData at he
  rcases hr : runTxTasks env b.hash (assocPrep M db b) b.transactions with ⟨rdb, reffs, rout⟩
  rw [hr] at he
  have hre : ∀ e ∈ reffs, txEff e = true := by
    intro e2 he2
    have := runTxTasks_effs env b.hash b.transactions (assocPrep M db b) e2
    rw [hr] at this
    exact this he2
  cases rout with
  | allResolved =>
    simp only [storeFinish, List.mem_cons, List.mem_append] at he
    rcases he with (rfl | he) | (rfl | he)
    · rfl
    · exact txEff_persistEff cbs e (hre e he)
    · rfl
    by_cases hm : cbs.moveToNextBlock
    · simp only [hm, if_pos] at he
      simp at he
      subst he
      simpa [persistEff] using hm
    · simp [hm] at he
  | someRejected msg =>
    simp only [storeFinish, List.mem_cons, List.mem_append] at he
    rcases he with (rfl | he) | he
    · rfl
    · exact txEff_persistEff cbs e (hre e he)
    · simp at he
      rcases he with rfl | rfl | rfl | rfl | rfl <;> rfl
  | fatalled =>
    simp only [storeFinish, List.mem_cons] at he
    rcases he with rfl | he
    · rfl
    · exact txEff_persistEff cbs e (hre e he)

theorem storeBlockAssocData_blocks (env : Env) (M : CacheMonitor) (cbs : Callbacks)
    (db : DB) (b : EvmBlock) :
    (storeBlockAssocData env M cbs db b).db.blocks = db.blocks := by
  unfold storeBlockAssocData
  rcases hr : runTxTasks env b.hash (assocPrep M db b) b.transactions with ⟨rdb, reffs, rout⟩
  have hb : rdb.blocks = db.blocks := by
    have := (runTxTasks_blocks env b.hash b.transactions (assocPrep M db b)).1
    rw [hr] at this
    rw [this]
    exact assocPrep_blocks M db b
  cases rout <;> simp [storeFinish, hb]

theorem storeBlockAssocData_begin (env : Env) (M : CacheMonitor) (cbs : Callbacks)
    (db : DB) (b : EvmBlock) :
    Eff.sqlBegin ∈ (storeBlockAssocData env M cbs db b).effs := by
  unfold storeBlockAssocData
  rcases runTxTasks env b.hash (assocPrep M db b) b.transactions with ⟨rdb, reffs, rout⟩
  cases rout <;> simp [storeFinish]

theorem persistEff_reconEff (cbs : Callbacks) (e : Eff) (h : persistEff cbs e = true) :
    reconEff cbs e = true := by
  cases e <;> simp_all [persistEff, reconEff]

theorem staleCheckStep_effs (env : Env) (M : CacheMonitor) (cbs : Callbacks)
    (db : DB) (b : EvmBlock) (n : Int) (numRows : List Nat) :
    ∀ e ∈ (staleCheckStep env M cbs db b n numRows).effs, reconEff cbs e = true := by
  intro e he
  cases numRows with
  | nil =>
    simp only [staleCheckStep] at he
    simp at he
    subst he
    rfl
  | cons c rest =>
    by_cases hc : b.transactions.length == c
    · simp only [staleCheckStep, hc, if_pos] at he
      by_cases hb : cbs.blockAlreadyExists
      · simp only [hb, if_pos] at he
        simp at he
        subst he
        simpa [reconEff] using hb
      · simp [hb] at he
    · simp only [staleCheckStep, hc, Bool.false_eq_true, if_neg, not_false_iff,
        List.mem_cons] at he
      rcases he with rfl | he
      · rfl
      · exact persistEff_reconEff cbs e (storeBlockAssocData_effs env M cbs db b e he)

theorem newBlockStep_effs (env : Env) (M : CacheMonitor) (cbs : Callbacks)
    (db : DB) (b : EvmBlock) (n : Int) :
    ∀ e ∈ (newBlockStep env M cbs db b n).effs, reconEff cbs e = true := by
  intro e he
  unfold newBlockStep at he
  have hpre : ∀ e2 ∈ (if cbs.foundDuringReviewBlock then [Eff.cbFoundDuringReview n b.hash]
      else [Eff.logInfo foundNewBlockMsg]), reconEff cbs e2 = true := by
    intro e2 he2
    by_cases hf : cbs.foundDuringReviewBlock
    · simp only [hf, if_pos] at he2
      simp at he2
      subst he2
      simpa [reconEff] using hf
    · simp only [hf, Bool.false_eq_true, if_neg, not_false_iff] at he2
      simp at he2
      subst he2
      rfl
  by_cases h0 : env.blockInsertRowCount b.hash == 0
  · simp only [h0, if_pos, List.mem_append] at he
    rcases he with he | he
    · exact hpre e he
    · simp at he
      rcases he with rfl | rfl | rfl <;> rfl
  · simp only [h0, Bool.false_eq_true, if_neg, not_false_iff, List.mem_append,
      List.mem_cons] at he
    rcases he with he | (rfl | he)
    · exact hpre e he
    · rfl
    · exact persistEff_reconEff cbs e (storeBlockAssocData_effs env M cbs _ b e he)

theorem reconcileBlock_effs (env : Env) (M : CacheMonitor) (cbs : Callbacks)
    (db : DB) (n : Int) (b : EvmBlock) :
    ∀ e ∈ (reconcileBlock env M cbs db n b).effs, reconEff cbs e = true := by
  intro e he
  unfold reconcileBlock at he
  cases hm : db.getBlockByHash M.blockchain_id b.hash with
  | nil =>
    rw [hm] at he
    exact newBlockStep_effs env M cbs db b n e he
  | cons row rest =>
    rw [hm] at he
    by_cases hc : b.transactions.length == db.transactionCountOf b.hash
    · simp only [hc, if_pos] at he
      exact staleCheckStep_effs env M cbs db b n _ e he
    · simp only [hc, Bool.false_eq_true, if_neg, not_false_iff, List.mem_cons] at he
      rcases he with rfl | he
      · rfl
      · exact persistEff_reconEff cbs e (storeBlockAssocData_effs env M cbs db b e he)

theorem reconEff_not_cursor (cbs : Callbacks) (e : Eff) (h : reconEff cbs e = true)
    (h1 : cbs.blockAlreadyExists = false) (h2 : cbs.moveToNextBlock = false) :
    Eff.isCursor e = false := by
  cases e <;> simp_all [reconEff, persistEff, Eff.isCursor]

theorem reconEff_not_cycle (cbs : Callbacks) (e : Eff) (h : reconEff cbs e = true) :
    Eff.isCycleCall e = false := by
  cases e <;> simp_all [reconEff, persistEff, Eff.isCycleCall]

theorem keptEnum_length_le (env : Env) (txh : Nat) :
    ∀ (logs : List EvmLog) (idx : Nat),
      (keptEnum env txh idx logs).length ≤ logs.length := by
  intro logs idx
  calc (keptEnum env txh idx logs).length
      ≤ ((List.range' idx logs.length).zip logs).length := List.length_filter_le _ _
    _ ≤ logs.length := by
        rw [List.length_zip, List.length_range']
        omega

theorem keptEnum_cons (env : Env) (txh idx : Nat) (l : EvmLog) (rest : List EvmLog) :
    keptEnum env txh idx (l :: rest) =
      if env.logInsertRowCount txh idx == 0 then keptEnum env txh (idx + 1) rest
      else (idx, l) :: keptEnum env txh (idx + 1) rest := by
  unfold keptEnum
  simp only [List.length_cons, List.range'_succ, List.zip_cons_cons, List.filter_cons]
  by_cases h : env.logInsertRowCount txh idx == 0 <;> simp [h]

theorem addLogsLoop_spec (env : Env) (txh : Nat) :
    ∀ (logs : List EvmLog) (idx : Nat) (db : DB),
      (addLogsLoop env txh db idx logs).1.logs =
        db.logs ++ List.zipWith (fun lid p => mkLogRow txh lid p.2)
          (List.range' db.nextLogId (keptEnum env txh idx logs).length)
          (keptEnum env txh idx logs) ∧
      (addLogsLoop env txh db idx logs).1.nextLogId =
        db.nextLogId + (keptEnum env txh idx logs).length ∧
      (addLogsLoop env txh db idx logs).2.countP Eff.isLogError =
        logs.length - (keptEnum env txh idx logs).length ∧
      (addLogsLoop env txh db idx logs).2.countP Eff.isDecode =
        (keptEnum env txh idx logs).length := by
  intro logs
  induction logs with
  | nil =>
    intro idx db
    simp [addLogsLoop, keptEnum]
  | cons l rest ih =>
    intro idx db
    have hk := keptEnum_cons env txh idx l rest
    have hle := keptEnum_length_le env txh rest (idx + 1)
    by_cases h : env.logInsertRowCount txh idx == 0
    · rw [hk]
      simp only [h, if_pos]
      simp only [addLogsLoop, h, if_pos]
      have ihx := ih (idx + 1) db
      refine ⟨ihx.1, ihx.2.1, ?_, ?_⟩
      · rw [List.countP_cons, ihx.2.2.1]
        simp [Eff.isLogError]
        omega
      · rw [List.countP_cons, ihx.2.2.2]
        simp [Eff.isDecode]
    · rw [hk]
      simp only [h, Bool.false_eq_true, if_neg, not_false_iff]
      simp only [addLogsLoop, h, Bool.false_eq_true, if_neg, not_false_iff]
      have ihx := ih (idx + 1) (db.addLogRow (fun lid => mkLogRow txh lid l)).1
      have hdb1 : (db.addLogRow (fun lid => mkLogRow txh lid l)).1.logs =
          db.logs ++ [mkLogRow txh db.nextLogId l] := by
        simp [DB.addLogRow]
      have hdb2 : (db.addLogRow (fun lid => mkLogRow txh lid l)).1.nextLogId =
          db.nextLogId + 1 := by
        simp [DB.addLogRow]
      refine ⟨?_, ?_, ?_, ?_⟩
      · rw [ihx.1, hdb1, hdb2]
        rw [List.length_cons, List.range'_succ, List.zipWith_cons_cons]
        simp [List.append_assoc]
      · rw [ihx.2.1, hdb2, List.length_cons]
        omega
      · rw [List.countP_cons, ihx.2.2.1]
        simp [Eff.isLogError]
      · rw [List.countP_cons, ihx.2.2.2]
        simp [Eff.isDecode]

theorem persistEff_not_throw (cbs : Callbacks) (e : Eff) (h : persistEff cbs e = true) :
    Eff.isThrow e = false := by
  cases e <;> simp_all [persistEff, Eff.isThrow]

theorem persistEff_not_blockInsert (cbs : Callbacks) (e : Eff) (h : persistEff cbs e = true) :
    Eff.isBlockInsert e = false := by
  cases e <;> simp_all [persistEff, Eff.isBlockInsert]

theorem txEff_ne_commit (e : Eff) (h : txEff e = true) : e ≠ Eff.sqlCommit := by
  cases e <;> simp_all [txEff]

theorem txEff_ne_rollback (e : Eff) (h : txEff e = true) : e ≠ Eff.sqlRollback := by
  cases e <;> simp_all [txEff]

/-- Claim C4 (confirmed): after atHead the scheduler pre-increments the
review counter exactly once; when the incremented counter is divisible by
comprehensiveReviewCountMod (250) it launches review fetches for exactly
the heights in the integer interval from n - 100 up to but excluding
n - 1, with no callbacks, and sleeps 15000 ms; otherwise for exactly the
heights from n - 15 up to but excluding n - 1, with the
foundDuringReviewBlock callback, and sleeps 2500 ms; it then re-enters the
cursor loop at the same n. -/
theorem c4_review_scheduler (bid c : Nat) (n : Int) :
    (atBlockchainHeadHandler
        { CacheMonitor.start bid with comprehensiveReviewCounter := c }
        n).1.comprehensiveReviewCounter = c + 1 ∧
    (atBlockchainHeadHandler
        { CacheMonitor.start bid with comprehensiveReviewCounter := c } n).2.reenter = n ∧
    (atBlockchainHeadHandler
        { CacheMonitor.start bid with comprehensiveReviewCounter := c } n).2.reviewCalls =
      (if (c + 1) % 250 == 0 then
        (intRange (n - 100) (n - 1)).map (fun p => (p, noCallbacks))
      else
        (intRange (n - 15) (n - 1)).map (fun p => (p, shortReviewCallbacks))) ∧
    (atBlockchainHeadHandler
        { CacheMonitor.start bid with comprehensiveReviewCounter := c } n).2.sleepMs =
      (if (c + 1) % 250 == 0 then 15000 else 2500) := by
  by_cases h : ((c + 1) % 250 == 0) = true <;>
    simp [atBlockchainHeadHandler, CacheMonitor.start, h]

/-- Claim C3 (counterexample): a message that contains the needle
"Invalid JSON RPC response" case-insensitively but not case-sensitively is
classified as fatal: the fetcher sleeps 2500 ms and exits 1 without ever
calling cycleNodes, contradicting the case-insensitive reading. -/
theorem c3_error_match_counterexample :
    containsSub (upperInvalidMsg.toList.map Char.toUpper)
        (invalidJsonRpcNeedle.toList.map Char.toUpper) = true ∧
    Eff.cycleNodes ∉ (processDelivery envAllOk monitorOne mainCallbacks 3 DB.empty false
        (Delivery.err upperInvalidMsg)).effs ∧
    Eff.sleep 2500 ∈ (processDelivery envAllOk monitorOne mainCallbacks 3 DB.empty false
        (Delivery.err upperInvalidMsg)).effs ∧
    Eff.exitProc 1 ∈ (processDelivery envAllOk monitorOne mainCallbacks 3 DB.empty false
        (Delivery.err upperInvalidMsg)).effs := by
  decide

/-- Claim C3 (corrected): on the first delivery of a getBlock error the
fetcher cycles nodes and re-enters the cursor loop at the same height
exactly when the message contains "Invalid JSON RPC response"
case-sensitively or "CONNECTION TIMEOUT" case-insensitively; any other
error is logged, then the process sleeps 2500 ms and exits 1. -/
theorem c3_error_classification (env : Env) (M : CacheMonitor) (cbs : Callbacks)
    (db : DB) (n : Int) (msg : String) :
    processDelivery env M cbs n db false (Delivery.err msg) =
      (if containsSub msg.toList invalidJsonRpcNeedle.toList ||
          containsSub (msg.toList.map Char.toUpper) connectionTimeoutNeedle.toList then
        ⟨db, [Eff.logErr cyclingMsg, Eff.cycleNodes, Eff.reenterMainLoop n], true⟩
      else
        ⟨db, [Eff.logErr (unknownErrorMsg msg), Eff.sleep 2500, Eff.exitProc 1], false⟩) := by
  by_cases h : (containsSub msg.toList invalidJsonRpcNeedle.toList ||
      containsSub (msg.toList.map Char.toUpper) connectionTimeoutNeedle.toList) = true <;>
    simp [processDelivery, isTransientError, h]

/-- Claim C1 (counterexample): the scheduler at head 7 launches a short
review fetch at prior height 5, and that fetch, on a transient node error,
re-enters the cursor loop at 5 — not at the head 7 — so a review fetch can
move the cursor. -/
theorem c1_review_cursor_counterexample :
    ((5 : Int), shortReviewCallbacks) ∈ (atBlockchainHeadHandler monitorOne 7).2.reviewCalls ∧
    Eff.reenterMainLoop 5 ∈ (processDelivery envAllOk monitorOne shortReviewCallbacks 5 DB.empty
        false (Delivery.err invalidJsonRpcNeedle)).effs ∧
    (5 : Int) ≠ 7 := by
  decide

/-- Claim C1 (corrected): a review fetch (neither atBlockchainHead nor
blockAlreadyExists nor moveToNextBlock registered) produces no
cursor-moving effect at all, except that a transient node error, with the
local recovery flag still clear, re-enters the cursor loop at the review
height p itself. -/
theorem c1_review_cursor_amended (env : Env) (M : CacheMonitor) (db : DB) (p : Int)
    (flag : Bool) (d : Delivery) (cbs : Callbacks)
    (h1 : cbs.atBlockchainHead = false) (h2 : cbs.blockAlreadyExists = false)
    (h3 : cbs.moveToNextBlock = false) :
    ∀ e ∈ (processDelivery env M cbs p db flag d).effs, Eff.isCursor e = true →
      e = Eff.reenterMainLoop p ∧ flag = false ∧
        ∃ msg, d = Delivery.err msg ∧ isTransientError msg = true := by
  intro e he hc
  cases d with
  | err msg =>
    by_cases ht : isTransientError msg = true
    · cases flag with
      | true =>
        simp only [processDelivery, ht, if_pos, if_true] at he
        simp at he
        subst he
        simp [Eff.isCursor] at hc
      | false =>
        simp only [processDelivery, ht, if_pos, Bool.false_eq_true, if_neg,
          not_false_iff, List.mem_cons] at he
        rcases he with rfl | rfl | he
        · simp [Eff.isCursor] at hc
        · simp [Eff.isCursor] at hc
        · simp at he
          subst he
          exact ⟨rfl, rfl, msg, rfl, ht⟩
    · have ht' : isTransientError msg = false := by simpa using ht
      simp only [processDelivery, ht', Bool.false_eq_true, if_neg, not_false_iff] at he
      simp at he
      rcases he with rfl | rfl | rfl <;> simp [Eff.isCursor] at hc
  | noBlock =>
    simp only [processDelivery, h1, Bool.false_eq_true, if_neg, not_false_iff] at he
    simp at he
  | block b =>
    have hr := reconcileBlock_effs env M cbs db p b e he
    rw [reconEff_not_cursor cbs e hr h2 h3] at hc
    exact absurd hc (by simp)

/-- Claim C1 witness: the amended statement applied to the concrete
transient-error review fetch at height 5. -/
theorem c1_review_cursor_amended_witness :
    Eff.reenterMainLoop 5 = Eff.reenterMainLoop 5 ∧ false = false :=
  ⟨(c1_review_cursor_amended envAllOk monitorOne DB.empty 5 false
      (Delivery.err invalidJsonRpcNeedle) shortReviewCallbacks rfl rfl rfl
      (Eff.reenterMainLoop 5) (by decide) rfl).1,
   (c1_review_cursor_amended envAllOk monitorOne DB.empty 5 false
      (Delivery.err invalidJsonRpcNeedle) shortReviewCallbacks rfl rfl rfl
      (Eff.reenterMainLoop 5) (by decide) rfl).2.1⟩

/-- Claim C5 (confirmed): a fetched block whose hash matches a stored row
with equal stored transaction_count and equal height-wide stored
transaction total performs no database write at all — the store is left
identical — and signals blockAlreadyExists, whose mainLoop handler
advances the cursor to n + 1. -/
theorem c5_already_exists_no_write (env : Env) (M : CacheMonitor) (db : DB)
    (n : Int) (b : EvmBlock) (flag : Bool)
    (h1 : db.getBlockByHash M.blockchain_id b.hash ≠ [])
    (h2 : db.transactionCountOf b.hash = b.transactions.length)
    (h3 : db.getBlockTransactionCount M.blockchain_id n = b.transactions.length) :
    processDelivery env M mainCallbacks n db flag (Delivery.block b) =
      ⟨db, [Eff.cbAlreadyExists n b.hash], flag⟩ ∧
    blockAlreadyExistsNext n = n + 1 := by
  refine ⟨?_, rfl⟩
  have hrec : reconcileBlock env M mainCallbacks db n b =
      ⟨db, [Eff.cbAlreadyExists n b.hash]⟩ := by
    cases hm : db.getBlockByHash M.blockchain_id b.hash with
    | nil => exact absurd hm h1
    | cons row rest =>
      have hc : (b.transactions.length == db.transactionCountOf b.hash) = true := by
        rw [h2]
        exact beq_self_eq_true _
      have hcc : (b.transactions.length == db.getBlockTransactionCount M.blockchain_id n)
          = true := by
        rw [h3]
        exact beq_self_eq_true _
      unfold reconcileBlock
      rw [hm]
      simp [hc, staleCheckStep, hcc, mainCallbacks]
  simp [processDelivery, hrec]

/-- Claim C5 witness: a stored block row with hash 7 at height 3 with two
stored transactions, re-fetched with the same two transactions. -/
theorem c5_already_exists_no_write_witness :
    processDelivery envAllOk monitorOne mainCallbacks 3 db5 false (Delivery.block b5) =
      ⟨db5, [Eff.cbAlreadyExists 3 7], false⟩ ∧
    blockAlreadyExistsNext 3 = 3 + 1 :=
  c5_already_exists_no_write envAllOk monitorOne db5 3 b5 false
    (by decide) (by decide) (by decide)

/-- Claim C10 (confirmed): in the branch reached when a stored row matches
the fetched hash with equal transaction_count, a zero-row result of the
height-wide count lookup makes the else-branch dereference the first row
of an empty result set: the operation throws and no re-persist (no BEGIN)
happens; a one-row result never throws; and the wired pipeline always
passes the single aggregate row, satisfying the precondition. -/
theorem c10_height_count_precondition (env : Env) (M : CacheMonitor) (cbs : Callbacks)
    (db : DB) (b : EvmBlock) (n : Int) (flag : Bool)
    (hmatch : db.getBlockByHash M.blockchain_id b.hash ≠ [])
    (hcnt : db.transactionCountOf b.hash = b.transactions.length) :
    ((staleCheckStep env M cbs db b n []).effs = [Eff.jsThrow undefinedCountMsg] ∧
     (staleCheckStep env M cbs db b n []).db = db ∧
     Eff.sqlBegin ∉ (staleCheckStep env M cbs db b n []).effs) ∧
    (∀ c : Nat, ∀ e ∈ (staleCheckStep env M cbs db b n [c]).effs, Eff.isThrow e = false) ∧
    processDelivery env M cbs n db flag (Delivery.block b) =
      ⟨(staleCheckStep env M cbs db b n
          [db.getBlockTransactionCount M.blockchain_id n]).db,
       (staleCheckStep env M cbs db b n
          [db.getBlockTransactionCount M.blockchain_id n]).effs,
       flag⟩ := by
  refine ⟨⟨rfl, rfl, by simp [staleCheckStep]⟩, ?_, ?_⟩
  · intro c e he
    by_cases hcc : b.transactions.length == c
    · simp only [staleCheckStep, hcc, if_pos] at he
      by_cases hb : cbs.blockAlreadyExists
      · simp only [hb, if_pos] at he
        simp at he
        subst he
        rfl
      · simp [hb] at he
    · simp only [staleCheckStep, hcc, Bool.false_eq_true, if_neg, not_false_iff,
        List.mem_cons] at he
      rcases he with rfl | he
      · rfl
      · exact persistEff_not_throw cbs e (storeBlockAssocData_effs env M cbs db b e he)
  · have hrec : reconcileBlock env M cbs db n b =
        staleCheckStep env M cbs db b n [db.getBlockTransactionCount M.blockchain_id n] := by
      cases hm : db.getBlockByHash M.blockchain_id b.hash with
      | nil => exact absurd hm hmatch
      | cons row rest =>
        have hc : (b.transactions.length == db.transactionCountOf b.hash) = true := by
          rw [hcnt]
          exact beq_self_eq_true _
        unfold reconcileBlock
        rw [hm]
        simp [hc]
    simp [processDelivery, hrec]

/-- Claim C10 witness: the concrete matched block with equal counts. -/
theorem c10_height_count_precondition_witness :
    (staleCheckStep envAllOk monitorOne mainCallbacks db5 b5 3 []).effs =
      [Eff.jsThrow undefinedCountMsg] :=
  (c10_height_count_precondition envAllOk monitorOne mainCallbacks db5 b5 3 false
    (by decide) (by decide)).1.1

/-- Claim C6 (confirmed): in both re-persist cases of the reconciler — a
matching hash whose stored transaction_count disagrees with the fetched
count, and a matching hash whose height-wide total disagrees — no new
block row is inserted: the stored block rows are unchanged, no
insertBlockRow effect occurs, and the persister is entered directly at the
associated-data rewrite (the trace contains BEGIN). -/
theorem c6_repersist_no_block_insert (env : Env) (M : CacheMonitor) (cbs : Callbacks)
    (db : DB) (n : Int) (b : EvmBlock) (flag : Bool)
    (h1 : db.getBlockByHash M.blockchain_id b.hash ≠ [])
    (hmis : db.transactionCountOf b.hash ≠ b.transactions.length ∨
            db.getBlockTransactionCount M.blockchain_id n ≠ b.transactions.length) :
    (processDelivery env M cbs n db flag (Delivery.block b)).db.blocks = db.blocks ∧
    (∀ e ∈ (processDelivery env M cbs n db flag (Delivery.block b)).effs,
      Eff.isBlockInsert e = false) ∧
    Eff.sqlBegin ∈ (processDelivery env M cbs n db flag (Delivery.block b)).effs := by
  have hgoal : (reconcileBlock env M cbs db n b).db.blocks = db.blocks ∧
      (∀ e ∈ (reconcileBlock env M cbs db n b).effs, Eff.isBlockInsert e = false) ∧
      Eff.sqlBegin ∈ (reconcileBlock env M cbs db n b).effs := by
    cases hm : db.getBlockByHash M.blockchain_id b.hash with
    | nil => exact absurd hm h1
    | cons row rest =>
      by_cases hc : (b.transactions.length == db.transactionCountOf b.hash) = true
      · have hcEq : db.transactionCountOf b.hash = b.transactions.length :=
          ((beq_iff_eq).mp hc).symm

        have hh : db.getBlockTransactionCount M.blockchain_id n ≠ b.transactions.length := by
          rcases hmis with hx | hx
          · exact absurd hcEq hx
          · exact hx
        have hcc : (b.transactions.length ==
            db.getBlockTransactionCount M.blockchain_id n) = false := by
          simp only [beq_eq_false_iff_ne, ne_eq]
          intro hEq
          exact hh hEq.symm
        have hrec : reconcileBlock env M cbs db n b =
            ⟨(storeBlockAssocData env M cbs db b).db,
             Eff.logInfo staleTxMsg :: (storeBlockAssocData env M cbs db b).effs⟩ := by
          unfold reconcileBlock
          rw [hm]
          simp [hc, staleCheckStep, hcc]
        rw [hrec]
        refine ⟨storeBlockAssocData_blocks env M cbs db b, ?_, ?_⟩
        · intro e he
          simp only [List.mem_cons] at he
          rcases he with rfl | he
          · rfl
          · exact persistEff_not_blockInsert cbs e (storeBlockAssocData_effs env M cbs db b e he)
        · exact List.mem_cons_of_mem _ (storeBlockAssocData_begin env M cbs db b)
      · have hrec : reconcileBlock env M cbs db n b =
            ⟨(storeBlockAssocData env M cbs db b).db,
             Eff.logInfo reinstatedMsg :: (storeBlockAssocData env M cbs db b).effs⟩ := by
          unfold reconcileBlock
          rw [hm]
          simp [hc]
        rw [hrec]
        refine ⟨storeBlockAssocData_blocks env M cbs db b, ?_, ?_⟩
        · intro e he
          simp only [List.mem_cons] at he
          rcases he with rfl | he
          · rfl
          · exact persistEff_not_blockInsert cbs e (storeBlockAssocData_effs env M cbs db b e he)
        · exact List.mem_cons_of_mem _ (storeBlockAssocData_begin env M cbs db b)
  exact hgoal

/-- Claim C6 witness: a stored hash-7 row whose stored count 0 disagrees
with the fetched count 1, re-persisted without touching the block rows. -/
theorem c6_repersist_no_block_insert_witness :
    (processDelivery envAllOk monitorOne mainCallbacks 3 db6 false
        (Delivery.block b6)).db.blocks = db6.blocks ∧
    Eff.sqlBegin ∈ (processDelivery envAllOk monitorOne mainCallbacks 3 db6 false
        (Delivery.block b6)).effs :=
  ⟨(c6_repersist_no_block_insert envAllOk monitorOne mainCallbacks db6 3 b6 false
      (by decide) (Or.inl (by decide))).1,
   (c6_repersist_no_block_insert envAllOk monitorOne mainCallbacks db6 3 b6 false
      (by decide) (Or.inl (by decide))).2.2⟩

theorem processDelivery_cycle_count (env : Env) (M : CacheMonitor) (cbs : Callbacks)
    (n : Int) (db : DB) (flag : Bool) (d : Delivery) :
    (processDelivery env M cbs n db flag d).effs.countP Eff.isCycleCall +
      (if (processDelivery env M cbs n db flag d).flag then 0 else 1) ≤
    (if flag then 0 else 1) := by
  cases d with
  | err msg =>
    by_cases ht : isTransientError msg = true
    · cases flag with
      | true => simp [processDelivery, ht, Eff.isCycleCall]
      | false => simp [processDelivery, ht, Eff.isCycleCall]
    · have ht' : isTransientError msg = false := by simpa using ht
      cases flag with
      | true => simp [processDelivery, ht', Eff.isCycleCall]
      | false => simp [processDelivery, ht', Eff.isCycleCall]
  | noBlock =>
    by_cases hcb : cbs.atBlockchainHead = true <;>
      cases flag <;> simp [processDelivery, hcb, Eff.isCycleCall]
  | block b =>
    have hz : (reconcileBlock env M cbs db n b).effs.countP Eff.isCycleCall = 0 := by
      rw [List.countP_eq_zero]
      intro e he
      have := reconEff_not_cycle cbs e (reconcileBlock_effs env M cbs db n b e he)
      simp [this]
    cases flag <;> simp [processDelivery, hz]

theorem processDeliveries_cycle_count (env : Env) (M : CacheMonitor) (cbs : Callbacks)
    (n : Int) :
    ∀ (ds : List Delivery) (db : DB) (flag : Bool),
      (processDeliveries env M cbs n db flag ds).effs.countP Eff.isCycleCall +
        (if (processDeliveries env M cbs n db flag ds).flag then 0 else 1) ≤
      (if flag then 0 else 1) := by
  intro ds
  induction ds with
  | nil => intro db flag; cases flag <;> simp [processDeliveries]
  | cons d rest ih =>
    intro db flag
    have h1 := processDelivery_cycle_count env M cbs n db flag d
    have h2 := ih (processDelivery env M cbs n db flag d).db
      (processDelivery env M cbs n db flag d).flag
    simp only [processDeliveries, List.countP_append]
    omega

/-- Claim C7 (confirmed): within one getBlock invocation, cycleNodes runs
at most once over any sequence of callback deliveries; in particular when
the node delivers a transient error twice, the second delivery is absorbed
with only a duplicate-error log line — no second cycle and no second
re-entry of the cursor loop. -/
theorem c7_cycle_at_most_once (env : Env) (M : CacheMonitor) (cbs : Callbacks)
    (n : Int) (db : DB) :
    (∀ ds : List Delivery,
      (processDeliveries env M cbs n db false ds).effs.countP Eff.isCycleCall ≤ 1) ∧
    (∀ m1 m2 : String, isTransientError m1 = true → isTransientError m2 = true →
      processDeliveries env M cbs n db false [Delivery.err m1, Delivery.err m2] =
        ⟨db, [Eff.logErr cyclingMsg, Eff.cycleNodes, Eff.reenterMainLoop n,
              Eff.logErr duplicateCycleMsg], true⟩) := by
  constructor
  · intro ds
    have := processDeliveries_cycle_count env M cbs n ds db false
    simp at this
    omega
  · intro m1 m2 h1 h2
    simp [processDeliveries, processDelivery, h1, h2]

/-- Claim C7 witness: the double transient-error delivery. -/
theorem c7_cycle_at_most_once_witness :
    processDeliveries envAllOk monitorOne mainCallbacks 9 DB.empty false
        [Delivery.err invalidJsonRpcNeedle, Delivery.err invalidJsonRpcNeedle] =
      ⟨DB.empty, [Eff.logErr cyclingMsg, Eff.cycleNodes, Eff.reenterMainLoop 9,
                  Eff.logErr duplicateCycleMsg], true⟩ :=
  (c7_cycle_at_most_once envAllOk monitorOne mainCallbacks 9 DB.empty).2
    invalidJsonRpcNeedle invalidJsonRpcNeedle (by decide) (by decide)

/-- Claim C2 (counterexample): with an empty store, persisting a new block
whose only transaction task rejects (its receipt fetch throws) performs
the ROLLBACK path — sleep 1000 ms and exit 1 — yet the resulting store is
not the pre-persist store: the block row inserted before BEGIN survives. -/
theorem c2_transaction_scope_counterexample :
    (processDelivery envC2 monitorOne mainCallbacks 9 DB.empty false
        (Delivery.block bC2)).db ≠ DB.empty ∧
    Eff.sqlRollback ∈ (processDelivery envC2 monitorOne mainCallbacks 9 DB.empty false
        (Delivery.block bC2)).effs ∧
    Eff.sleep 1000 ∈ (processDelivery envC2 monitorOne mainCallbacks 9 DB.empty false
        (Delivery.block bC2)).effs ∧
    Eff.exitProc 1 ∈ (processDelivery envC2 monitorOne mainCallbacks 9 DB.empty false
        (Delivery.block bC2)).effs := by
  decide

/-- Claim C2 (corrected): persisting a new block runs the deletes, ommer
inserts and per-transaction inserts inside one SQL transaction that is
opened only after the block-row insert; when a per-transaction task
rejects, the ROLLBACK restores the store to its state immediately after
the block-row insert — the new block row remains — and then the process
sleeps 1000 ms, logs the error and exits 1; no COMMIT occurs. -/
theorem c2_transaction_scope_amended (env : Env) (M : CacheMonitor) (cbs : Callbacks)
    (db : DB) (n : Int) (b : EvmBlock) (flag : Bool)
    (hnew : db.getBlockByHash M.blockchain_id b.hash = [])
    (hbrc : env.blockInsertRowCount b.hash ≠ 0)
    (hok : ∀ u ∈ b.transactions, isSomeRes (env.receipts u.hash) = true →
      env.txInsertRowCount u.hash ≠ 0)
    (hex : ∃ u ∈ b.transactions, isThrownRes (env.receipts u.hash) = true) :
    (processDelivery env M cbs n db flag (Delivery.block b)).db =
      db.addBlockRow (mkBlockRow M.blockchain_id b) ∧
    (∃ pre m, (processDelivery env M cbs n db flag (Delivery.block b)).effs =
      pre ++ [Eff.sqlRollback, Eff.sleep 1000, Eff.logErr promisesFailedMsg,
              Eff.logErr m, Eff.exitProc 1]) ∧
    Eff.sqlCommit ∉ (processDelivery env M cbs n db flag (Delivery.block b)).effs := by
  obtain ⟨m, hm⟩ := runTxTasks_someRejected env b.hash b.transactions
    (assocPrep M (db.addBlockRow (mkBlockRow M.blockchain_id b)) b) hok hex
  rcases hr : runTxTasks env b.hash
      (assocPrep M (db.addBlockRow (mkBlockRow M.blockchain_id b)) b) b.transactions
    with ⟨rdb, reffs, rout⟩
  rw [hr] at hm
  simp only at hm
  subst hm
  have hre : ∀ e ∈ reffs, txEff e = true := by
    intro e he
    have := runTxTasks_effs env b.hash b.transactions
      (assocPrep M (db.addBlockRow (mkBlockRow M.blockchain_id b)) b) e
    rw [hr] at this
    exact this he
  have hstore : storeBlockAssocData env M cbs (db.addBlockRow (mkBlockRow M.blockchain_id b)) b =
      ⟨db.addBlockRow (mkBlockRow M.blockchain_id b),
       Eff.sqlBegin :: reffs ++
         [Eff.sqlRollback, Eff.sleep 1000, Eff.logErr promisesFailedMsg,
          Eff.logErr m, Eff.exitProc 1]⟩ := by
    unfold storeBlockAssocData
    rw [hr]
    rfl
  have hbrc' : (env.blockInsertRowCount b.hash == 0) = false := by
    simpa using hbrc
  have hnbs : reconcileBlock env M cbs db n b =
      ⟨db.addBlockRow (mkBlockRow M.blockchain_id b),
       (if cbs.foundDuringReviewBlock then [Eff.cbFoundDuringReview n b.hash]
        else [Eff.logInfo foundNewBlockMsg]) ++
         Eff.insertBlockRow b.hash :: (Eff.sqlBegin :: reffs ++
           [Eff.sqlRollback, Eff.sleep 1000, Eff.logErr promisesFailedMsg,
            Eff.logErr m, Eff.exitProc 1])⟩ := by
    unfold reconcileBlock
    rw [hnew]
    unfold newBlockStep
    rw [hstore]
    simp [hbrc']
  refine ⟨?_, ?_, ?_⟩
  · show (reconcileBlock env M cbs db n b).db = _
    rw [hnbs]
  · refine ⟨(if cbs.foundDuringReviewBlock then [Eff.cbFoundDuringReview n b.hash]
      else [Eff.logInfo foundNewBlockMsg]) ++
        Eff.insertBlockRow b.hash :: Eff.sqlBegin :: reffs, m, ?_⟩
    show (reconcileBlock env M cbs db n b).effs = _
    rw [hnbs]
    simp [List.append_assoc]
  · show Eff.sqlCommit ∉ (reconcileBlock env M cbs db n b).effs
    rw [hnbs]
    intro hmem
    rcases List.mem_append.mp hmem with hmem | hmem
    · by_cases hf : cbs.foundDuringReviewBlock = true
      · rw [hf] at hmem
        simp at hmem
      · have hf' : cbs.foundDuringReviewBlock = false := by simpa using hf
        rw [hf'] at hmem
        simp at hmem
    · rcases List.mem_cons.mp hmem with hmem | hmem
      · exact absurd hmem (by simp)
      · rcases List.mem_append.mp hmem with hmem | hmem
        · rcases List.mem_cons.mp hmem with hmem | hmem
          · exact absurd hmem (by simp)
          · exact txEff_ne_commit Eff.sqlCommit (hre _ hmem) rfl
        · simp at hmem

/-- Claim C2 witness: the amended statement applied to the concrete
rejecting persist of bC2 over the empty store. -/
theorem c2_transaction_scope_amended_witness :
    (processDelivery envC2 monitorOne mainCallbacks 9 DB.empty false
        (Delivery.block bC2)).db = DB.empty.addBlockRow (mkBlockRow 1 bC2) :=
  (c2_transaction_scope_amended envC2 monitorOne mainCallbacks DB.empty 9 bC2 false
    (by decide) (by decide) (by decide) (by decide)).1

/-- Claim C8 (confirmed): within the per-transaction persist step a
transaction insert affecting zero rows is fatal — the connection is
released, the error is logged and the process exits 1, with no store
change — whereas a zero-rowcount log insert is only logged and skipped:
exactly the receipt logs whose insert reports a nonzero rowcount are
stored, in order and with consecutive log ids, one error line is logged
per skipped log, the decoder runs once per stored log, and the task
resolves without any exit. -/
theorem c8_insert_rowcount_policy (env : Env) (db : DB) (bh : Nat) (t : EvmTx)
    (rec : Receipt)
    (hrec : env.receipts t.hash = ReceiptRes.ok (some rec)) :
    (env.txInsertRowCount t.hash = 0 →
      getTransaction env db bh t =
        ⟨db, [Eff.release, Eff.logErr noTxRowResultMsg, Eff.exitProc 1],
         TxTaskResult.fatal⟩) ∧
    (env.txInsertRowCount t.hash ≠ 0 →
      (getTransaction env db bh t).res = TxTaskResult.resolvedOk ∧
      (∀ e ∈ (getTransaction env db bh t).effs, Eff.isExit e = false) ∧
      (getTransaction env db bh t).db.txs = db.txs ++ [mkTxRow bh t rec] ∧
      (getTransaction env db bh t).db.logs =
        (if rec.logs.isEmpty then db.logs
         else db.logs.filter (fun l => !(l.transaction_hash == t.hash)) ++
           List.zipWith (fun lid p => mkLogRow t.hash lid p.2)
             (List.range' db.nextLogId (keptEnum env t.hash 0 rec.logs).length)
             (keptEnum env t.hash 0 rec.logs)) ∧
      (getTransaction env db bh t).effs.countP Eff.isLogError =
        rec.logs.length - (keptEnum env t.hash 0 rec.logs).length ∧
      (getTransaction env db bh t).effs.countP Eff.isDecode =
        (keptEnum env t.hash 0 rec.logs).length) := by
  constructor
  · intro h0
    have h0' : (env.txInsertRowCount t.hash == 0) = true := by simpa using h0
    unfold getTransaction
    rw [hrec]
    simp [h0']
  · intro h0
    have h0' : (env.txInsertRowCount t.hash == 0) = false := by simpa using h0
    have hexit := getTransaction_no_exit env db bh t (fun _ => h0)
    by_cases hl : rec.logs.isEmpty
    · have hnil : rec.logs = [] := List.isEmpty_iff.mp hl
      have hgt : getTransaction env db bh t =
          ⟨db.addTxRow (mkTxRow bh t rec), [], TxTaskResult.resolvedOk⟩ := by
        unfold getTransaction
        rw [hrec]
        simp [h0', hl]
      rw [hgt] at hexit ⊢
      refine ⟨rfl, hexit, by simp [DB.addTxRow], ?_, ?_, ?_⟩
      · simp [hl, DB.addTxRow]
      · simp [hnil, keptEnum]
      · simp [hnil, keptEnum]
    · have hgt : getTransaction env db bh t =
          ⟨(addLogsLoop env t.hash
              ((db.addTxRow (mkTxRow bh t rec)).deleteLogsByTransactionHash t.hash)
              0 rec.logs).1,
            (addLogsLoop env t.hash
              ((db.addTxRow (mkTxRow bh t rec)).deleteLogsByTransactionHash t.hash)
              0 rec.logs).2,
            TxTaskResult.resolvedOk⟩ := by
        unfold getTransaction
        rw [hrec]
        simp [h0', hl]
      have hspec := addLogsLoop_spec env t.hash rec.logs 0
        ((db.addTxRow (mkTxRow bh t rec)).deleteLogsByTransactionHash t.hash)
      have hshape := addLogsLoop_shape env t.hash rec.logs 0
        ((db.addTxRow (mkTxRow bh t rec)).deleteLogsByTransactionHash t.hash)
      have hdel_logs : ((db.addTxRow (mkTxRow bh t rec)).deleteLogsByTransactionHash
          t.hash).logs = db.logs.filter (fun l => !(l.transaction_hash == t.hash)) := by
        simp [DB.addTxRow, DB.deleteLogsByTransactionHash]
      have hdel_next : ((db.addTxRow (mkTxRow bh t rec)).deleteLogsByTransactionHash
          t.hash).nextLogId = db.nextLogId := by
        simp [DB.addTxRow, DB.deleteLogsByTransactionHash]
      have hdel_txs : ((db.addTxRow (mkTxRow bh t rec)).deleteLogsByTransactionHash
          t.hash).txs = db.txs ++ [mkTxRow bh t rec] := by
        simp [DB.addTxRow, DB.deleteLogsByTransactionHash]
      rw [hgt] at hexit ⊢
      refine ⟨rfl, hexit, ?_, ?_, ?_, ?_⟩
      · rw [hshape.2.1, hdel_txs]
      · rw [hspec.1, hdel_logs, hdel_next]
        simp [hl]
      · exact hspec.2.2.1
      · exact hspec.2.2.2

/-- Claim C8 witness: transaction 31 with a two-log receipt whose first
log insert reports zero rows: the task resolves, skipping the first log
and storing the second. -/
theorem c8_insert_rowcount_policy_witness :
    (getTransaction envC8 DB.empty 21 tx31).res = TxTaskResult.resolvedOk ∧
    (getTransaction envC8 DB.empty 21 tx31).effs.countP Eff.isDecode = 1 :=
  ⟨((c8_insert_rowcount_policy envC8 DB.empty 21 tx31 recC8 (by decide)).2
      (by decide)).1,
   (((c8_insert_rowcount_policy envC8 DB.empty 21 tx31 recC8 (by decide)).2
      (by decide)).2.2.2.2.2).trans (by decide)⟩

/-- Claim C9 (confirmed): a transaction of a fetched block whose receipt
query returns null is skipped without aborting the persist of the block:
given that every other task can insert (nonzero rowcounts) and none
rejects, the persist COMMITs with no ROLLBACK and no process exit, no
transaction row with the skipped hash is present afterwards (assuming none
was present before), and every transaction whose receipt resolved is
stored under the block hash. -/
theorem c9_missing_receipt_skip (env : Env) (M : CacheMonitor) (cbs : Callbacks)
    (db : DB) (b : EvmBlock) (t : EvmTx)
    (ht : t ∈ b.transactions)
    (hnull : env.receipts t.hash = ReceiptRes.ok none)
    (hok : ∀ u ∈ b.transactions, isSomeRes (env.receipts u.hash) = true →
      env.txInsertRowCount u.hash ≠ 0)
    (hnt : ∀ u ∈ b.transactions, isThrownRes (env.receipts u.hash) = false)
    (hinit : ∀ row ∈ db.txs, row.hash ≠ t.hash) :
    Eff.sqlCommit ∈ (storeBlockAssocData env M cbs db b).effs ∧
    Eff.sqlRollback ∉ (storeBlockAssocData env M cbs db b).effs ∧
    (∀ e ∈ (storeBlockAssocData env M cbs db b).effs, Eff.isExit e = false) ∧
    (∀ row ∈ (storeBlockAssocData env M cbs db b).db.txs, row.hash ≠ t.hash) ∧
    (∀ u ∈ b.transactions, isSomeRes (env.receipts u.hash) = true →
      ∃ row ∈ (storeBlockAssocData env M cbs db b).db.txs,
        row.hash = u.hash ∧ row.block_hash = b.hash) := by
  have hout := runTxTasks_allResolved env b.hash b.transactions (assocPrep M db b) hok hnt
  rcases hr : runTxTasks env b.hash (assocPrep M db b) b.transactions with ⟨rdb, reffs, rout⟩
  rw [hr] at hout
  simp only at hout
  subst hout
  have hre : ∀ e ∈ reffs, txEff e = true := by
    intro e he
    have := runTxTasks_effs env b.hash b.transactions (assocPrep M db b) e
    rw [hr] at this
    exact this he
  have hnoexit : ∀ e ∈ reffs, Eff.isExit e = false := by
    intro e he
    have := runTxTasks_no_exit env b.hash b.transactions (assocPrep M db b) hok e
    rw [hr] at this
    exact this he
  have hstore : storeBlockAssocData env M cbs db b =
      ⟨rdb, Eff.sqlBegin :: reffs ++
        Eff.sqlCommit :: (if cbs.moveToNextBlock then [Eff.cbMoveToNext b.number] else [])⟩ := by
    unfold storeBlockAssocData
    rw [hr]
    rfl
  rw [hstore]
  have hcbs : ∀ e, e ∈ (if cbs.moveToNextBlock then [Eff.cbMoveToNext b.number] else []) →
      e = Eff.cbMoveToNext b.number := by
    intro e he
    by_cases hmv : cbs.moveToNextBlock = true
    · rw [hmv] at he
      simpa using he
    · have hmv' : cbs.moveToNextBlock = false := by simpa using hmv
      rw [hmv'] at he
      simp at he
  refine ⟨?_, ?_, ?_, ?_, ?_⟩
  · simp
  · intro hmem
    rcases List.mem_cons.mp hmem with hmem | hmem
    · exact absurd hmem (by simp)
    · rcases List.mem_append.mp hmem with hmem | hmem
      · exact txEff_ne_rollback Eff.sqlRollback (hre _ hmem) rfl
      · rcases List.mem_cons.mp hmem with hmem | hmem
        · exact absurd hmem (by simp)
        · have := hcbs _ hmem
          simp at this
  · intro e he
    rcases List.mem_cons.mp he with rfl | he
    · rfl
    · rcases List.mem_append.mp he with he | he
      · exact hnoexit e he
      · rcases List.mem_cons.mp he with rfl | he
        · rfl
        · rw [hcbs e he]
          rfl
  · intro row hrow
    have hprov := runTxTasks_txs_prov env b.hash b.transactions (assocPrep M db b) row
    rw [hr] at hprov
    rcases hprov hrow with hmem | ⟨u, hu, hhash, hsome⟩
    · exact hinit row (assocPrep_txs_sub M db b row hmem)
    · intro hEq
      rw [hEq] at hhash
      rw [← hhash] at hsome
      rw [hnull] at hsome
      simp [isSomeRes] at hsome
  · intro u hu hsome
    have hins := runTxTasks_inserted env b.hash b.transactions (assocPrep M db b)
      u hu hsome hok
    rw [hr] at hins
    exact hins

/-- Claim C9 witness: block b9 with transactions 31 (receipt null) and 32
(receipt present): the persist commits. -/
theorem c9_missing_receipt_skip_witness :
    Eff.sqlCommit ∈ (storeBlockAssocData envC9 monitorOne mainCallbacks DB.empty b9).effs :=
  (c9_missing_receipt_skip envC9 monitorOne mainCallbacks DB.empty b9 tx31
    (by decide) (by decide) (by decide) (by decide) (by decide)).1
